import Mathlib

/-!
# Verification of the response-directive execution core (BadrBouzakri/AI_Agent)

A shallow embedding, over `List Char`, of the parts of the repository that the
specification's claims are about:

* the safety classifiers
  (`mistral_api_agent_v05/mistral_agent.py::is_dangerous_command`,
   `mistral_api_agent_v04/mistral_agent.py::is_dangerous_command`,
   `agent_admin/linux_assistant/utils/safety.py::check_command_safety`),
  including a faithful model of Python's `shlex.split` (POSIX mode) which
  raises on unbalanced quotes;
* the execution engines (`execute_command` of v05 and v04): alias expansion,
  the in-process `cd` pseudo-command with `os.path` resolution, recording into
  the persisted command history (v05), the dangerous-command confirmation gate
  and subprocess spawning (abstracted as a pure `runner` function);
* the quick-command resolver (`execute_quick_command` of v05) with a model of
  `re.findall` over `\{([^}]+)\}` and of `str.format(**params)`;
* the directive parser (`process_response` of v05): procedural models of the
  five regex scans (`finditer` + `sub`) for the EXEC / SCRIPT / TEMPLATE /
  QUICKCMD / DEVOPS tag families;
* the bounded conversation history
  (`agent_admin/linux_assistant/context_manager.py::add_message`, with
  Python's `list[-n:]` slicing semantics);
* the named context snapshots (`save_context` / `load_context` of v04), with
  the on-disk snapshot mapping modelled as an association list.

Machine-specific behaviour (actual subprocess output, the file system, clock
timestamps, `$HOME`) enters only through explicitly quantified parameters.
-/

namespace AIAgent

/-! ## Python character classes and elementary string helpers

Commands, templates and responses are modelled as `List Char`.  The helpers
below mirror the Python string primitives used by the source (`str.strip`,
`str.split()`, `str.startswith`, `in` substring tests, `str.replace(a, b, 1)`,
`list[-n:]`).  Character classes mirror `\s` / `\w` of the `re` module for the
ASCII range (the only range exercised by the repository's tags and commands).
-/

/-- Python whitespace (`\s`, `str.strip`, `str.split()`) restricted to ASCII:
space, tab, newline, carriage return, form feed, vertical tab. -/
def isPySpace (c : Char) : Bool :=
  c = ' ' || c = '\t' || c = '\n' || c = '\r' || c = '\x0c' || c = '\x0b'

/-- Python word character (`\w`) restricted to ASCII: letters, digits, `_`. -/
def isPyWord (c : Char) : Bool :=
  (c ≥ 'a' && c ≤ 'z') || (c ≥ 'A' && c ≤ 'Z') || (c ≥ '0' && c ≤ '9') || c = '_'

/-- `str.lstrip()` (no argument): drop leading whitespace. -/
def pyLStrip (s : List Char) : List Char := s.dropWhile isPySpace

/-- `str.rstrip()` (no argument): drop trailing whitespace. -/
def pyRStrip (s : List Char) : List Char := (s.reverse.dropWhile isPySpace).reverse

/-- `str.strip()` (no argument): drop leading and trailing whitespace. -/
def pyStrip (s : List Char) : List Char := pyRStrip (pyLStrip s)

/-- Worker for `str.split()`: `cur` is the (reversed) word being read. -/
def pySplitWSAux (cur : List Char) : List Char → List (List Char)
  | [] => if cur = [] then [] else [cur.reverse]
  | c :: rest =>
    if isPySpace c then
      if cur = [] then pySplitWSAux [] rest
      else cur.reverse :: pySplitWSAux [] rest
    else pySplitWSAux (c :: cur) rest

/-- `str.split()` (no argument): split on runs of whitespace, dropping empty
pieces. -/
def pySplitWS (s : List Char) : List (List Char) := pySplitWSAux [] s

/-- First occurrence of the token `tok` as a contiguous substring of `s`:
returns `some (pre, post)` with `s = pre ++ tok ++ post` and `pre` shortest,
`none` when `tok` does not occur.  This is the primitive that the procedural
models of `re.finditer` / `re.sub` scanning (for patterns anchored on a
literal token) are built from. -/
def splitFirst (tok : List Char) : List Char → Option (List Char × List Char)
  | [] => if tok = [] then some ([], []) else none
  | c :: rest =>
    if tok.isPrefixOf (c :: rest) then some ([], (c :: rest).drop tok.length)
    else (splitFirst tok rest).map (fun pq => (c :: pq.1, pq.2))

/-- `long.startswith(short)` on Python strings. -/
def pyStartsWith (s prefixTok : List Char) : Bool := prefixTok.isPrefixOf s

/-- `needle in haystack` on Python strings (contiguous substring test). -/
def pyContains (haystack needle : List Char) : Bool :=
  (splitFirst needle haystack).isSome

/-- `s.replace(old, new, 1)`: replace the first occurrence only (`s` unchanged
when `old` does not occur; Python's empty `old` inserts `new` in front, which
`splitFirst` reproduces). -/
def pyReplaceFirst (s old new : List Char) : List Char :=
  match splitFirst old s with
  | none => s
  | some (pre, post) => pre ++ new ++ post

/-- Python `lst[-n:]` for a non-negative `n` (as used for history trimming):
for `n = 0` this is `lst[0:]`, the whole list; otherwise the last `n`
elements. -/
def pySliceLast {α : Type} (l : List α) (n : Nat) : List α :=
  if n = 0 then l else l.drop (l.length - n)

/-! ### Basic lemmas about `splitFirst` -/

theorem splitFirst_spec (tok : List Char) :
    ∀ (s pre post : List Char), splitFirst tok s = some (pre, post) →
      s = pre ++ tok ++ post := by
  intro s
  induction s with
  | nil =>
    intro pre post h
    simp only [splitFirst] at h
    by_cases htok : tok = ([] : List Char)
    · rw [if_pos htok] at h
      obtain ⟨h1, h2⟩ := Prod.mk.injEq .. ▸ Option.some.injEq .. ▸ h
      simp [htok, ← h1, ← h2]
    · rw [if_neg htok] at h
      exact absurd h (by simp)
  | cons c rest ih =>
    intro pre post h
    simp only [splitFirst] at h
    by_cases hp : tok.isPrefixOf (c :: rest)
    · rw [if_pos hp] at h
      obtain ⟨u, hu⟩ := List.isPrefixOf_iff_prefix.mp hp
      obtain ⟨h1, h2⟩ := Prod.mk.injEq .. ▸ Option.some.injEq .. ▸ h
      subst h1
      rw [← h2, ← hu, List.nil_append, List.drop_left]
    · rw [if_neg hp] at h
      obtain ⟨⟨p, q⟩, hpq, hmap⟩ := Option.map_eq_some'.mp h
      obtain ⟨h1, h2⟩ := Prod.mk.injEq .. ▸ hmap
      subst h1; subst h2
      simp [ih p q hpq]

theorem splitFirst_of_isPrefixOf {tok s : List Char}
    (h : tok.isPrefixOf s = true) :
    splitFirst tok s = some ([], s.drop tok.length) := by
  cases s with
  | nil =>
    have : tok = [] := by
      have := List.isPrefixOf_iff_prefix.mp h
      exact List.prefix_nil.mp this
    simp [splitFirst, this]
  | cons c rest => simp [splitFirst, h]

/-- `SafeChunk tok x`: no occurrence of `tok` starts inside `x`, whatever text
follows `x`.  Such chunks are transparent to the scanners below: the leftmost
occurrence of `tok` in `x ++ s` lies entirely within `s`. -/
def SafeChunk (tok x : List Char) : Prop :=
  ∀ s₁ s₂ b : List Char, x = s₁ ++ s₂ → s₂ ≠ [] → ¬ tok <+: (s₂ ++ b)

theorem safeChunk_nil (tok : List Char) : SafeChunk tok [] := by
  intro s₁ s₂ b h hne
  exact absurd (List.append_eq_nil.mp h.symm).2 hne

theorem SafeChunk.tail {tok : List Char} {c : Char} {x : List Char}
    (h : SafeChunk tok (c :: x)) : SafeChunk tok x := by
  intro s₁ s₂ b hx hne
  exact h (c :: s₁) s₂ b (by simp [hx]) hne

theorem SafeChunk.append {tok x y : List Char}
    (hx : SafeChunk tok x) (hy : SafeChunk tok y) : SafeChunk tok (x ++ y) := by
  intro s₁ s₂ b h hne
  rcases List.append_eq_append_iff.mp h.symm with ⟨a, ha1, ha2⟩ | ⟨c, hc1, hc2⟩
  · -- x = s₁ ++ a and s₂ = a ++ y: the occurrence would start inside x
    by_cases hanil : a = ([] : List Char)
    · subst hanil
      simp only [List.nil_append] at ha2
      exact hy [] s₂ b (by simp [ha2]) hne
    · have h1 := hx s₁ a (y ++ b) ha1 hanil
      rw [ha2]
      simpa using h1
  · -- y = c ++ s₂: the occurrence starts inside y
    exact hy c s₂ b hc2 hne

theorem safeChunk_noBracket {tok x : List Char}
    (htok : tok.head? = some '[') (hx : '[' ∉ x) : SafeChunk tok x := by
  intro s₁ s₂ b h hne
  intro hpre
  cases s₂ with
  | nil => exact hne rfl
  | cons d s₂' =>
    cases tok with
    | nil => simp at htok
    | cons t tr =>
      have ht : t = '[' := by simpa using htok
      obtain ⟨u, hu⟩ := hpre
      have hd : d = t := by
        have := congrArg (fun l => l.head?) hu
        simpa using this.symm
      have : d ∈ x := by rw [h]; simp
      rw [hd, ht] at this
      exact hx this

/-- Transfer of list prefixes through `take`. -/
theorem prefix_take_mono {l₁ l₂ : List Char} (n : Nat) (h : l₁ <+: l₂) :
    l₁.take n <+: l₂.take n := by
  obtain ⟨u, hu⟩ := h
  subst hu
  rw [List.take_append_eq_append_take]
  exact ⟨u.take (n - l₁.length), rfl⟩

/-- A chunk of the shape `'[' :: d ++ y` is safe for a token `'[' :: tr` that
disagrees with the discriminator `d` within its first two characters, provided
`d` itself contains no `'['` and the remainder `y` is safe. -/
theorem safeChunk_cons_discr {tok tr d y : List Char}
    (htok : tok = '[' :: tr) (hd2 : 2 ≤ d.length) (hdbr : '[' ∉ d)
    (hmm : (tr.take 2).isPrefixOf (d.take 2) = false)
    (hy : SafeChunk tok y) : SafeChunk tok ('[' :: (d ++ y)) := by
  have hdy : SafeChunk tok (d ++ y) :=
    SafeChunk.append (safeChunk_noBracket (by simp [htok]) hdbr) hy
  intro s₁ s₂ b h hne
  cases s₁ with
  | cons c s₁' =>
    have hc : c = '[' := by
      have := congrArg (fun l => l.head?) h
      simpa using this.symm
    have htl : d ++ y = s₁' ++ s₂ := by
      have := congrArg List.tail h
      simpa using this
    exact hdy s₁' s₂ b htl hne
  | nil =>
    simp only [List.nil_append] at h
    subst h
    intro hpre
    rw [htok] at hpre
    obtain ⟨u, hu⟩ := hpre
    have htr : tr <+: (d ++ (y ++ b)) := by
      refine ⟨u, ?_⟩
      have := congrArg List.tail hu
      simpa using this
    have h2 : tr.take 2 <+: (d ++ (y ++ b)).take 2 := prefix_take_mono 2 htr
    rw [List.take_append_eq_append_take, Nat.sub_eq_zero_of_le hd2,
      List.take_zero, List.append_nil] at h2
    have h3 := List.isPrefixOf_iff_prefix.mpr h2
    simp [hmm] at h3

/-- The leftmost occurrence of `tok` in `x ++ s` is its leftmost occurrence in
`s` when no occurrence starts inside `x`. -/
theorem splitFirst_append_right {tok : List Char} (x s : List Char)
    (hx : SafeChunk tok x) :
    splitFirst tok (x ++ s) =
      (splitFirst tok s).map (fun pq => (x ++ pq.1, pq.2)) := by
  induction x with
  | nil =>
    cases h : splitFirst tok s <;> simp [h]
  | cons c x' ih =>
    have h0 := hx [] (c :: x') s (by simp) (by simp)
    have hnp : tok.isPrefixOf (c :: (x' ++ s)) = false :=
      Bool.eq_false_iff.mpr fun hb => h0 (List.isPrefixOf_iff_prefix.mp hb)
    rw [List.cons_append]
    simp only [splitFirst, hnp, Bool.false_eq_true, if_false]
    rw [ih hx.tail]
    cases h : splitFirst tok s <;> simp [h]

/-! ## Python `shlex.split` (POSIX mode, as called by `is_dangerous_command`)

`shlex.split(command)` tokenizes with `posix=True`, `whitespace_split=True`
and comments disabled.  The relevant behaviour, transcribed from CPython's
`shlex.read_token` state machine:

* whitespace (`' \t\r\n'`) separates tokens;
* `'...'` quotes verbatim; `"..."` quotes with `\` escaping only `\` and `"`
  (a backslash before any other character is kept together with it);
* outside quotes `\` escapes the next character (dropping the backslash);
* an unterminated quote raises `ValueError("No closing quotation")` and a
  trailing backslash raises `ValueError("No escaped character")`;
* empty quotes produce an empty token.
-/

/-- The exception raised by `shlex` on malformed input (`ValueError`). -/
inductive ShlexErr : Type where
  | noClosingQuotation : ShlexErr
  | noEscapedCharacter : ShlexErr
deriving DecidableEq, Repr

/-- `shlex.whitespace` is exactly `' \t\r\n'`. -/
def isShlexSpace (c : Char) : Bool :=
  c = ' ' || c = '\t' || c = '\r' || c = '\n'

/-- The states of `shlex.read_token`: between tokens (state `' '`), inside a
word (state `'a'`, with the accumulated token and the `quoted` flag), inside a
quote (state `'\''` or `'"'`), or after an escape character (`retq` remembers
whether the escape occurred inside a double quote). -/
inductive ShlexState : Type where
  | ws : ShlexState
  | word (tok : List Char) (quoted : Bool) : ShlexState
  | quote (qc : Char) (tok : List Char) : ShlexState
  | esc (retq : Option Char) (tok : List Char) (quoted : Bool) : ShlexState

/-- One-pass execution of the `shlex` state machine over the whole input,
accumulating finished tokens in `acc` (in reverse). -/
def shlexRun (st : ShlexState) (acc : List (List Char)) :
    List Char → Except ShlexErr (List (List Char))
  | [] =>
    match st with
    | .ws => .ok acc.reverse
    | .word tok quoted =>
      if tok ≠ [] || quoted then .ok (tok :: acc).reverse else .ok acc.reverse
    | .quote _ _ => .error .noClosingQuotation
    | .esc _ _ _ => .error .noEscapedCharacter
  | c :: rest =>
    match st with
    | .ws =>
      if isShlexSpace c then shlexRun .ws acc rest
      else if c = '\\' then shlexRun (.esc none [] false) acc rest
      else if c = '\'' || c = '"' then shlexRun (.quote c []) acc rest
      else shlexRun (.word [c] false) acc rest
    | .word tok quoted =>
      if isShlexSpace c then shlexRun .ws (tok :: acc) rest
      else if c = '\\' then shlexRun (.esc none tok quoted) acc rest
      else if c = '\'' || c = '"' then shlexRun (.quote c tok) acc rest
      else shlexRun (.word (tok ++ [c]) quoted) acc rest
    | .quote qc tok =>
      -- processing any character inside a quote sets the `quoted` flag
      if c = qc then shlexRun (.word tok true) acc rest
      else if qc = '"' && c = '\\' then shlexRun (.esc (some '"') tok true) acc rest
      else shlexRun (.quote qc (tok ++ [c])) acc rest
    | .esc none tok quoted =>
      -- escape outside quotes: the backslash is dropped, `c` kept verbatim
      shlexRun (.word (tok ++ [c]) quoted) acc rest
    | .esc (some dq) tok _ =>
      -- escape inside a double quote: only `\` and `"` are escapable
      if c ≠ '\\' && c ≠ dq then shlexRun (.quote dq (tok ++ ['\\', c])) acc rest
      else shlexRun (.quote dq (tok ++ [c])) acc rest

/-- `shlex.split(command)` (POSIX mode): the token list, or the `ValueError`
it raises. -/
def shlexSplit (command : List Char) : Except ShlexErr (List (List Char)) :=
  shlexRun .ws [] command

/-! ## Safety classifiers -/

/-- `DANGEROUS_COMMANDS` of `mistral_api_agent_v05/mistral_agent.py`. -/
def dangerousCommandsV05 : List (List Char) :=
  ["rm".toList, "mv".toList, "dd".toList, "mkfs".toList, "fdisk".toList,
   ">".toList, "2>".toList, "truncate".toList, "rmdir".toList, "pkill".toList,
   "kill".toList, "shutdown".toList, "reboot".toList, "halt".toList,
   "systemctl stop".toList, "systemctl restart".toList, "chown".toList,
   "chmod".toList, "userdel".toList, "groupdel".toList, "deluser".toList,
   "passwd".toList, "parted".toList, "lvremove".toList, "vgremove".toList,
   "pvremove".toList, "iptables -F".toList, "ufw disable".toList]

/-- `DANGEROUS_COMMANDS` of `mistral_api_agent_v04/mistral_agent.py` (the
default value of `config["dangerous_commands"]`). -/
def dangerousCommandsV04 : List (List Char) :=
  ["rm".toList, "mv".toList, "dd".toList, "mkfs".toList, "fdisk".toList,
   ">".toList, "2>".toList, "truncate".toList, "rmdir".toList, "pkill".toList,
   "kill".toList, ":(){:|:&};:".toList]

/-- `MistralAgent.is_dangerous_command` of v05.  `shlex.split` is called with
no exception handler, so its `ValueError` propagates (the `Except` error).
The redirection test transcribes Python's operator precedence:
`">" in command or "|" in command and ("rm" in command or "mv" in command)`
parses as `(">" in command) or (("|" in command) and (...))`. -/
def isDangerousV05 (command : List Char) : Except ShlexErr Bool := do
  let commandParts ← shlexSplit command
  match commandParts with
  | [] => pure false
  | baseCmd :: _ =>
    if baseCmd ∈ dangerousCommandsV05 then pure true
    else if pyContains command ['>'] ||
        (pyContains command ['|'] &&
          (pyContains command "rm".toList || pyContains command "mv".toList)) then
      pure true
    else if baseCmd = "rm".toList && decide ("-rf".toList ∈ commandParts) then
      pure true
    else pure false

/-- `MistralAgent.is_dangerous_command` of v04: same shape, with the dangerous
set taken from the configuration, an explicit guard for the empty command
(`shlex.split(command) if command else []`), and `-fr` also recognized. -/
def isDangerousV04 (dangerous : List (List Char)) (command : List Char) :
    Except ShlexErr Bool := do
  let commandParts ← if command = [] then pure [] else shlexSplit command
  match commandParts with
  | [] => pure false
  | baseCmd :: _ =>
    if baseCmd ∈ dangerous then pure true
    else if pyContains command ['>'] ||
        (pyContains command ['|'] &&
          (pyContains command "rm".toList || pyContains command "mv".toList)) then
      pure true
    else if baseCmd = "rm".toList &&
        (decide ("-rf".toList ∈ commandParts) || decide ("-fr".toList ∈ commandParts)) then
      pure true
    else pure false

/-- `DANGEROUS_COMMANDS` of `agent_admin/linux_assistant/utils/safety.py`
(substring patterns). -/
def dangerousPatternsSafety : List (List Char) :=
  ["rm -rf".toList, "rm -r".toList, "rmdir".toList, "mkfs".toList, "dd".toList,
   "shred".toList, "fdisk".toList, "mkfs".toList, "format".toList, ">>".toList,
   ">".toList, "truncate".toList, "drop database".toList, "drop table".toList,
   "delete from".toList, "wget".toList, "curl -O".toList]

/-- `DANGEROUS_OPTIONS` of `safety.py`. -/
def dangerousOptionsSafety : List (List Char) :=
  ["--force".toList, "--no-preserve-root".toList, "-f".toList, "--delete".toList]

/-- The system path prefixes consulted by `check_command_safety`'s redirection
branch. -/
def systemPathsSafety : List (List Char) :=
  ["/etc/".toList, "/var/".toList, "/boot/".toList, "/lib/".toList,
   "/bin/".toList, "/sbin/".toList]

/-- The per-command body of `check_command_safety` (`safety.py`): a command is
safe unless a dangerous pattern or option occurs as a substring, or it has a
redirection together with a system path substring. -/
def isSafeCommandSafety (command : List Char) : Bool :=
  if dangerousPatternsSafety.any (fun d => pyContains command d) then false
  else if dangerousOptionsSafety.any (fun o => pyContains command o) then false
  else if (pyContains command ['>'] || pyContains command ">>".toList) &&
      systemPathsSafety.any (fun p => pyContains command p) then false
  else true

/-- `check_command_safety(commands)`: the `(safe_commands, unsafe_commands)`
pair, each preserving input order. -/
def checkCommandSafety (commands : List (List Char)) :
    List (List Char) × List (List Char) :=
  (commands.filter isSafeCommandSafety,
   commands.filter (fun c => !isSafeCommandSafety c))

/-! ## POSIX path helpers (`os.path`), as used by the `cd` pseudo-command -/

/-- `str.split(sep)` for a single-character separator: keeps empty pieces
(`"a//b".split('/') == ['a', '', 'b']`, `"".split('/') == ['']`). -/
def splitOnChar (sep : Char) : List Char → List (List Char)
  | [] => [[]]
  | c :: rest =>
    if c = sep then [] :: splitOnChar sep rest
    else
      match splitOnChar sep rest with
      | [] => [[c]]
      | w :: ws => (c :: w) :: ws

/-- `posixpath.normpath`: collapse `//`, drop `.`, resolve `..` (an initial
double slash is preserved, per POSIX). -/
def pyNormpath (path : List Char) : List Char :=
  if path = [] then ['.']
  else
    let initialSlashes : Nat :=
      if pyStartsWith path ['/'] then
        if pyStartsWith path ['/', '/'] && !pyStartsWith path ['/', '/', '/'] then 2
        else 1
      else 0
    let comps := splitOnChar '/' path
    -- `new_comps` is kept reversed so that append/pop act on the head
    let newCompsRev := comps.foldl (fun acc comp =>
      if comp = [] || comp = ['.'] then acc
      else if comp ≠ "..".toList || (initialSlashes = 0 && acc = []) ||
          acc.head? = some "..".toList then comp :: acc
      else if acc ≠ [] then acc.tail
      else acc) []
    let joined := List.intercalate ['/'] newCompsRev.reverse
    let path' := List.replicate initialSlashes '/' ++ joined
    if path' = [] then ['.'] else path'

/-- `posixpath.isabs`. -/
def pyIsAbs (path : List Char) : Bool := pyStartsWith path ['/']

/-- `posixpath.join(a, b)` (two arguments). -/
def pyJoin (a b : List Char) : List Char :=
  if pyIsAbs b then b
  else if a = [] || a.getLast? = some '/' then a ++ b
  else a ++ '/' :: b

/-- `posixpath.abspath(path)` relative to the process working directory
`procCwd` (`os.getcwd()`). -/
def pyAbspath (procCwd path : List Char) : List Char :=
  if pyIsAbs path then pyNormpath path else pyNormpath (pyJoin procCwd path)

/-- `posixpath.expanduser` for the bare `~` / `~/...` forms, with `home` the
value of `$HOME`.  A `~user` form would consult the passwd database; the
model leaves it unchanged (CPython also returns such paths unchanged when the
user is unknown). -/
def pyExpanduser (home path : List Char) : List Char :=
  if !pyStartsWith path ['~'] then path
  else if path = ['~'] || pyStartsWith path "~/".toList then
    let userhome := (home.reverse.dropWhile (fun c => c = '/')).reverse
    let r := userhome ++ path.drop 1
    if r = [] then ['/'] else r
  else path

/-! ## The v05 execution engine (`MistralAgent.execute_command`)

State components are the attributes the function reads or writes:
`self.current_dir`, the process working directory (`os.chdir`/`os.getcwd`),
`self.config` (aliases, custom commands, command history) and its persisted
copy (`save_config` writes `self.config` to the configuration file), and the
conversation history (untouched by `execute_command`, carried to express
frame conditions).  The environment enters as parameters: `isDir` models
`os.path.isdir`, `runner` models `subprocess.Popen(...).communicate()`
(returning `(returncode, stdout, stderr)`), `confirm` the operator's answer
to the confirmation prompt, `ts` the `datetime.now().isoformat()` timestamp.
Every command string handed to a subprocess is accumulated in `spawned`. -/

/-- Exceptions that can escape the modelled code paths. -/
inductive PyExn : Type where
  | shlexValueError (e : ShlexErr) : PyExn
  | formatIndexError : PyExn
  | formatValueError : PyExn
  | indexError : PyExn
deriving DecidableEq, Repr

/-- The mutable configuration of v05 (`self.config`), restricted to the keys
`execute_command` / `execute_quick_command` touch. -/
structure ConfigV05 : Type where
  aliases : List (List Char × List Char)
  customCommands : List (List Char × List Char)
  commandHistory : List (List Char × List Char × List Char)
deriving DecidableEq, Repr

/-- The session state of the v05 agent relevant to command execution. -/
structure AgentStateV05 : Type where
  currentDir : List Char
  processCwd : List Char
  config : ConfigV05
  persistedConfig : ConfigV05
  conversationHistory : List (List Char × List Char)
deriving DecidableEq, Repr

/-- Result of one engine invocation: the returned string, the state after,
and the commands handed to a subprocess (in order). -/
structure ExecOutcome : Type where
  output : List Char
  state : AgentStateV05
  spawned : List (List Char)
deriving DecidableEq, Repr

/-- The values of `SYSTEM_INFO_COMMANDS` (v05), each run through
`subprocess.run(..., shell=True)` by `collect_system_info`. -/
def systemInfoCommands : List (List Char) :=
  ["cat /etc/os-release".toList,
   "uname -a".toList,
   "hostname -f".toList,
   "uptime".toList,
   "cat /proc/cpuinfo | grep 'model name' | head -n 1 | cut -d ':' -f 2 | xargs".toList,
   "free -h | grep Mem | awk '{print $2}'".toList,
   "free -h | grep Mem | awk '{print $3}'".toList,
   "df -h / | tail -n 1 | awk '{print $5}'".toList,
   "cat /proc/loadavg | awk '{print $1, $2, $3}'".toList,
   "who | wc -l".toList,
   "ps aux | wc -l".toList,
   "ip -br addr show".toList]

/-- The alias-substitution loop at the top of v05's `execute_command`: the
first alias whose name equals the stripped command or prefixes it followed by
a space is substituted (first occurrence anywhere in the raw command,
`command.replace(alias, cmd, 1)`), then the loop breaks. -/
def aliasExpandV05 (aliases : List (List Char × List Char)) (command : List Char) :
    List Char :=
  match aliases.find? (fun ac =>
      pyStrip command = ac.1 || pyStartsWith (pyStrip command) (ac.1 ++ [' '])) with
  | none => command
  | some (a, cmd) => pyReplaceFirst command a cmd

/-- The substrings whose presence in a command triggers a refresh of the
system information after successful execution (v05). -/
def sysinfoTriggerCommands : List (List Char) :=
  ["apt".toList, "yum".toList, "dnf".toList, "systemctl".toList,
   "docker".toList, "kubectl".toList]

/-- The command-history recording step of v05's `execute_command` (runs for
every non-`cd` command except `pwd`, `clear` and `ls...`, before the safety
check): append `{'command': ..., 'timestamp': ..., 'directory': ...}` to
`config['command_history']`, trim to the last 100 entries, `save_config()`. -/
def recordCommandHistoryV05 (ts : List Char) (st : AgentStateV05)
    (command : List Char) : AgentStateV05 :=
  if command ≠ "pwd".toList && command ≠ "clear".toList &&
      !pyStartsWith command "ls".toList then
    let hist₀ := st.config.commandHistory ++ [(command, ts, st.currentDir)]
    let hist := if hist₀.length > 100 then pySliceLast hist₀ 100 else hist₀
    let cfg := { st.config with commandHistory := hist }
    { st with config := cfg, persistedConfig := cfg }
  else st

/-- `MistralAgent.execute_command` of v05. -/
def executeCommandV05 (isDir : List Char → Bool)
    (runner : List Char → List Char → Int × List Char × List Char)
    (confirm : Bool) (ts : List Char) (st : AgentStateV05) (command₀ : List Char) :
    Except PyExn ExecOutcome := do
  -- alias substitution
  let command := aliasExpandV05 st.config.aliases command₀
  -- special handling of `cd `
  if pyStartsWith (pyStrip command) "cd ".toList then
    let targetDir := pyStrip ((pyStrip command).drop 3)
    let newDir₀ := if pyStartsWith targetDir ['/'] then targetDir
                   else pyJoin st.currentDir targetDir
    let newDir := pyAbspath st.processCwd newDir₀
    if isDir newDir then
      -- os.chdir + self.current_dir update + collect_system_info
      pure { output := "Répertoire courant : ".toList ++ newDir
             state := { st with currentDir := newDir, processCwd := newDir }
             spawned := systemInfoCommands }
    else
      pure { output := "Erreur: Le répertoire ".toList ++ newDir ++
                       " n'existe pas.".toList
             state := st, spawned := [] }
  else
    -- command-history recording (before the safety check)
    let st₁ := recordCommandHistoryV05 ts st command
    -- safety check (a shlex ValueError propagates)
    let dangerous ← match isDangerousV05 command with
      | .error e => .error (.shlexValueError e)
      | .ok b => .ok b
    if dangerous && !confirm then
      pure { output := "Commande annulée par l'utilisateur.".toList
             state := st₁, spawned := [] }
    else
      let (rc, stdout, stderr) := runner command st₁.currentDir
      if rc ≠ 0 then
        pure { output := "Erreur (code ".toList ++ (toString rc).toList ++
                         "):\n".toList ++ stderr
               state := st₁, spawned := [command] }
      else if sysinfoTriggerCommands.any (fun c => pyContains command c) then
        pure { output := stdout, state := st₁,
               spawned := command :: systemInfoCommands }
      else
        pure { output := stdout, state := st₁, spawned := [command] }

/-! ## The v04 execution engine (`MistralAgent.execute_command`)

Differences from v05: aliases are matched on the first whitespace-separated
word (raising `IndexError` on an empty command), the `cd` target also expands
a leading `~`, there is no command-history recording and no system-info
refresh, and the dangerous set comes from `config["dangerous_commands"]`. -/

/-- The session state of the v04 agent relevant to command execution. -/
structure AgentStateV04 : Type where
  currentDir : List Char
  processCwd : List Char
  dangerousCommands : List (List Char)
  aliases : List (List Char × List Char)
  conversationHistory : List (List Char × List Char)
deriving DecidableEq, Repr

/-- Result of one v04 engine invocation. -/
structure ExecOutcomeV04 : Type where
  output : List Char
  state : AgentStateV04
  spawned : List (List Char)
deriving DecidableEq, Repr

/-- The alias substitution at the top of v04's `execute_command`:
`command.strip().split()[0]` (IndexError when empty) is looked up in the
alias mapping and, on a hit, replaced at its first occurrence in the raw
command. -/
def aliasExpandV04 (aliases : List (List Char × List Char)) (command : List Char) :
    Except PyExn (List Char) :=
  match pySplitWS (pyStrip command) with
  | [] => .error .indexError
  | w :: _ =>
    match aliases.find? (fun ac => ac.1 = w) with
    | none => .ok command
    | some (a, v) => .ok (pyReplaceFirst command a v)

/-- `MistralAgent.execute_command` of v04.  `home` is `$HOME` (for
`os.path.expanduser`). -/
def executeCommandV04 (isDir : List Char → Bool)
    (runner : List Char → List Char → Int × List Char × List Char)
    (confirm : Bool) (home : List Char) (st : AgentStateV04) (command₀ : List Char) :
    Except PyExn ExecOutcomeV04 := do
  let command ← aliasExpandV04 st.aliases command₀
  if pyStartsWith (pyStrip command) "cd ".toList then
    let targetDir := pyStrip ((pyStrip command).drop 3)
    let newDir₀ :=
      if pyStartsWith targetDir ['/'] then targetDir
      else if pyStartsWith targetDir ['~'] then pyExpanduser home targetDir
      else pyJoin st.currentDir targetDir
    let newDir := pyAbspath st.processCwd newDir₀
    if isDir newDir then
      pure { output := "Répertoire courant : ".toList ++ newDir
             state := { st with currentDir := newDir, processCwd := newDir }
             spawned := [] }
    else
      pure { output := "Erreur: Le répertoire ".toList ++ newDir ++
                       " n'existe pas.".toList
             state := st, spawned := [] }
  else
    let dangerous ← match isDangerousV04 st.dangerousCommands command with
      | .error e => .error (.shlexValueError e)
      | .ok b => .ok b
    if dangerous && !confirm then
      pure { output := "Commande annulée par l'utilisateur.".toList
             state := st, spawned := [] }
    else
      let (rc, stdout, stderr) := runner command st.currentDir
      if rc ≠ 0 then
        pure { output := "Erreur (code ".toList ++ (toString rc).toList ++
                         "):\n".toList ++ stderr
               state := st, spawned := [command] }
      else
        pure { output := stdout, state := st, spawned := [command] }

/-! ## The quick-command resolver (`MistralAgent.execute_quick_command`, v05) -/

/-- The built-in `QUICK_COMMANDS` mapping of v05 (insertion order). -/
def quickCommands : List (List Char × List Char) :=
  [("service-status".toList, "systemctl status {service}".toList),
   ("service-start".toList, "systemctl start {service}".toList),
   ("service-stop".toList, "systemctl stop {service}".toList),
   ("service-restart".toList, "systemctl restart {service}".toList),
   ("service-enable".toList, "systemctl enable {service}".toList),
   ("service-disable".toList, "systemctl disable {service}".toList),
   ("service-list".toList, "systemctl list-units --type=service".toList),
   ("cpu-info".toList, "lscpu".toList),
   ("mem-info".toList, "free -h".toList),
   ("disk-usage".toList, "df -h".toList),
   ("top-processes".toList, "ps aux | sort -nrk 3,3 | head -n 10".toList),
   ("check-port".toList, "ss -tuln | grep {port}".toList),
   ("cpu-load".toList, "mpstat 1 5".toList),
   ("io-stats".toList, "iostat -xz 1 5".toList),
   ("ping-host".toList, "ping -c 4 {host}".toList),
   ("check-ip".toList, "ip addr show".toList),
   ("route-table".toList, "ip route".toList),
   ("dns-lookup".toList, "dig {domain}".toList),
   ("open-ports".toList, "netstat -tuln".toList),
   ("traceroute".toList, "traceroute {host}".toList),
   ("docker-ps".toList, "docker ps".toList),
   ("docker-images".toList, "docker images".toList),
   ("docker-stats".toList, "docker stats --no-stream".toList),
   ("docker-prune".toList, "docker system prune -f".toList),
   ("k8s-pods".toList, "kubectl get pods".toList),
   ("k8s-nodes".toList, "kubectl get nodes".toList),
   ("k8s-deployments".toList, "kubectl get deployments".toList),
   ("k8s-services".toList, "kubectl get services".toList),
   ("logs-system".toList, "journalctl -xe".toList),
   ("logs-service".toList, "journalctl -u {service} -f".toList),
   ("logs-auth".toList, "tail -n 50 /var/log/auth.log".toList),
   ("logs-kernel".toList, "dmesg | tail -n 50".toList),
   ("apt-update".toList, "sudo apt update && sudo apt list --upgradable".toList),
   ("apt-upgrade".toList, "sudo apt upgrade -y".toList),
   ("pkg-installed".toList, "dpkg -l | grep {package}".toList),
   ("find-large-files".toList,
    "find {path} -type f -size +{size}M -exec ls -lh {} \\;".toList),
   ("tail-file".toList, "tail -f {file}".toList),
   ("find-modified".toList, "find {path} -type f -mtime -{days} -ls".toList),
   ("git-status".toList, "git status".toList),
   ("git-log".toList, "git log --oneline --graph --decorate -n 10".toList)]

theorem splitFirst_post_length_lt {tok : List Char} (htok : tok ≠ [])
    {s pre post : List Char} (h : splitFirst tok s = some (pre, post)) :
    post.length < s.length := by
  have hs := splitFirst_spec tok s pre post h
  have : s.length = pre.length + tok.length + post.length := by
    rw [hs]; simp [List.length_append]; omega
  have htok1 : 1 ≤ tok.length := by
    cases tok with
    | nil => exact absurd rfl htok
    | cons a as => simp
  omega

/-- `re.findall(r'\{([^}]+)\}', template)`: the placeholder names, in order of
occurrence (a `{}` with empty interior does not match; `[^}]+` greedily runs
to the next `}`, so a name is exactly the text from a `{` to the first
following `}`, provided it is non-empty).  The recursion is driven by a
fuel counter, initially the string length, which the jumps never exhaust
(each recursive call shortens the string), so the definition reduces by
plain computation. -/
def findParamsF : Nat → List Char → List (List Char)
  | 0, _ => []
  | _, [] => []
  | fuel + 1, c :: rest =>
    if c = '{' then
      match splitFirst ['}'] rest with
      | some (run, post) =>
        if run ≠ [] then run :: findParamsF fuel post
        else findParamsF fuel rest
      | none => findParamsF fuel rest
    else findParamsF fuel rest

def findParams (s : List Char) : List (List Char) := findParamsF s.length s

/-- Failures of `str.format`: `{}` auto-numbering with no positional argument
(`IndexError`), an unknown keyword field (`KeyError`), a stray single brace
(`ValueError`). -/
inductive FmtErr : Type where
  | indexError : FmtErr
  | keyError (name : List Char) : FmtErr
  | valueError : FmtErr
deriving DecidableEq, Repr

/-- `template.format(**kwargs)` with no positional arguments, for templates
whose fields carry no conversion (`!`) or format spec (`:`) — the shape of
every template in this repository.  `{{`/`}}` denote literal braces; `{}` is
an automatic-numbering field and raises `IndexError` because no positional
arguments are supplied, as does an all-digit field name (a positional index);
a field name containing `{` raises `ValueError`; `{name}` is looked up in
`kwargs` (`KeyError` when absent); an unpaired brace raises `ValueError`.
Fuel-driven like `findParamsF` (the wrapper supplies the string length,
which the shortening recursion never exhausts). -/
def pyFormatF (kwargs : List (List Char × List Char)) :
    Nat → List Char → Except FmtErr (List Char)
  | _, [] => .ok []
  | 0, _ :: _ => .ok []
  | fuel + 1, c :: rest =>
    if c = '{' then
      if rest.head? = some '{' then do
        let t ← pyFormatF kwargs fuel rest.tail
        .ok ('{' :: t)
      else
        match splitFirst ['}'] rest with
        | none => .error .valueError
        | some (name, post) =>
          if name = [] then .error .indexError
          else if pyContains name ['{'] then .error .valueError
          else if name.all (fun d => d.isDigit) then .error .indexError
          else
            match kwargs.find? (fun kv => kv.1 = name) with
            | none => .error (.keyError name)
            | some (_, v) => do
              let t ← pyFormatF kwargs fuel post
              .ok (v ++ t)
    else if c = '}' then
      if rest.head? = some '}' then do
        let t ← pyFormatF kwargs fuel rest.tail
        .ok ('}' :: t)
      else .error .valueError
    else do
      let t ← pyFormatF kwargs fuel rest
      .ok (c :: t)

def pyFormat (kwargs : List (List Char × List Char)) (s : List Char) :
    Except FmtErr (List Char) := pyFormatF kwargs s.length s

/-- Membership test on a Python dict modelled as an association list. -/
def dictHas (d : List (List Char × List Char)) (k : List Char) : Bool :=
  d.any (fun kv => kv.1 = k)

/-- Lookup on a Python dict modelled as an association list (the repository's
dicts have unique keys, so the first match is the binding). -/
def dictFind (d : List (List Char × List Char)) (k : List Char) : List Char :=
  match d.find? (fun kv => kv.1 = k) with
  | none => []
  | some kv => kv.2

/-- Python dict assignment `d[k] = v`: overwrite in place or append. -/
def dictInsert {V : Type} (d : List (List Char × V)) (k : List Char) (v : V) :
    List (List Char × V) :=
  if d.any (fun kv => kv.1 = k) then
    d.map (fun kv => if kv.1 = k then (k, v) else kv)
  else d ++ [(k, v)]

/-- The parameter dictionary built by `execute_quick_command`: positional
binding of `args` to `param_names` (`params[name] = args[i]`); a repeated
name is overwritten by its later (rightmost) binding. -/
def buildParams (names args : List (List Char)) : List (List Char × List Char) :=
  (names.zip args).foldl (fun d nv => dictInsert d nv.1 nv.2) []

/-- Lexicographic comparison of Python strings by code point (`sorted`). -/
def lexLe : List Char → List Char → Bool
  | [], _ => true
  | _ :: _, [] => false
  | a :: as, b :: bs => if a = b then lexLe as bs else decide (a < b)

/-- `', '.join(l)`. -/
def joinCommaSpace (l : List (List Char)) : List Char :=
  List.intercalate ", ".toList l

/-- What `execute_quick_command` does before reaching `execute_command`:
either an error message returned to the caller, or a resolved command
string to execute. -/
inductive QuickOutcome : Type where
  | message (text : List Char) : QuickOutcome
  | runCommand (cmd : List Char) : QuickOutcome
deriving DecidableEq, Repr

/-- The resolution phase of `MistralAgent.execute_quick_command` (v05), up to
the final `self.execute_command(cmd)` call.  Only `KeyError` from
`str.format` is caught; `IndexError` and `ValueError` propagate. -/
def executeQuickResolve (custom : List (List Char × List Char))
    (cmdName : List Char) (args : List (List Char)) : Except PyExn QuickOutcome :=
  if !dictHas quickCommands cmdName && !dictHas custom cmdName then
    let available := (quickCommands.map Prod.fst ++ custom.map Prod.fst).mergeSort lexLe
    .ok (.message ("Erreur: Commande '".toList ++ cmdName ++
      "' non disponible. Commandes disponibles: ".toList ++ joinCommaSpace available))
  else
    let cmdTemplate := if dictHas custom cmdName then dictFind custom cmdName
                       else dictFind quickCommands cmdName
    if pyContains cmdTemplate ['{'] && pyContains cmdTemplate ['}'] then
      let paramNames := findParams cmdTemplate
      if args.length < paramNames.length then
        .ok (.message ("Erreur: La commande '".toList ++ cmdName ++
          "' nécessite les paramètres suivants: ".toList ++ joinCommaSpace paramNames))
      else
        match pyFormat (buildParams paramNames args) cmdTemplate with
        | .error (.keyError k) =>
          -- caught: `except KeyError as e` (str(e) is the quoted key)
          .ok (.message ("Erreur: Paramètre manquant: '".toList ++ k ++ "'".toList))
        | .error .indexError => .error .formatIndexError
        | .error .valueError => .error .formatValueError
        | .ok cmd => .ok (.runCommand cmd)
    else .ok (.runCommand cmdTemplate)

/-- `MistralAgent.execute_quick_command` of v05 end to end: resolve, then run
the resolved command through `execute_command`.  A resolution message is
returned without touching the state or spawning anything. -/
def executeQuickCommandV05 (isDir : List Char → Bool)
    (runner : List Char → List Char → Int × List Char × List Char)
    (confirm : Bool) (ts : List Char) (st : AgentStateV05)
    (cmdName : List Char) (args : List (List Char)) : Except PyExn ExecOutcome := do
  match ← executeQuickResolve st.config.customCommands cmdName args with
  | .message text => pure { output := text, state := st, spawned := [] }
  | .runCommand cmd => executeCommandV05 isDir runner confirm ts st cmd

/-! ## The directive parser (`MistralAgent.process_response`, v05)

The five patterns

* `exec_pattern     = r"\[EXEC\](.*?)\[\/EXEC\]"` (DOTALL)
* `script_pattern   = r"\[SCRIPT\s+(\w+)\s+([^\]]+)\](.*?)\[\/SCRIPT\]"` (DOTALL)
* `template_pattern = r"\[TEMPLATE\s+(\w+)\s+([^\]]+)\]"`
* `quickcmd_pattern = r"\[QUICKCMD\s+(\w+)(?:\s+([^\]]+))?\]"`
* `devops_pattern   = r"\[DEVOPS\s+(\w+)(?:\s+([^\]]+))?\]"`

are each anchored on a literal opening token, so `re.finditer` / `re.sub`
scanning is modelled procedurally: find the leftmost opening token, try to
complete the match there, on success continue after the match, on failure
resume scanning one character after the token start (exactly the regex
engine's position-by-position search, skipping positions that cannot start a
match).  The lazy bodies `(.*?)` run to the first later closing token; the
greedy tails `\s+(\w+)\s+([^\]]+)\]` are deterministic up to the boundary
between the second `\s+` and `([^\]]+)` (`\s` and `\w` are disjoint classes,
so shortening a maximal run only moves the failure), where the engine keeps
the longest whitespace run that still leaves a non-empty `[^\]]+` group
before the first `]`: the group is `pre.drop (min w (pre.length - 1))` with
`w` the whitespace-run length and `pre` the text before the first `]`. -/

/-- Generic scanner: all matches of an `openTok`-anchored pattern, in order,
together with the input with all matched spans removed (the combined effect
of `re.finditer` and `re.sub`).  `matchTail` completes a match right after an
occurrence of `openTok` and returns the payload and the text after the
match.  Fuel-driven (see `scanCore`). -/
def scanCoreF {α : Type} (openTok : List Char)
    (matchTail : List Char → Option (α × List Char)) :
    Nat → List Char → List α × List Char
  | 0, s => ([], s)
  | fuel + 1, s =>
    match splitFirst openTok s with
    | none => ([], s)
    | some (pre, post) =>
      match matchTail post with
      | some (a, rest) =>
        let pr := scanCoreF openTok matchTail fuel rest
        (a :: pr.1, pre ++ pr.2)
      | none =>
        -- no match starts at this token: resume one character further on
        let pr := scanCoreF openTok matchTail fuel (openTok.drop 1 ++ post)
        (pr.1, pre ++ openTok.take 1 ++ pr.2)

/-- The scanner at full fuel: every recursive call strictly shortens the
text (the opening token is non-empty), so `s.length` fuel is never
exhausted. -/
def scanCore {α : Type} (openTok : List Char)
    (matchTail : List Char → Option (α × List Char)) (s : List Char) :
    List α × List Char :=
  scanCoreF openTok matchTail s.length s

/-- The maximal `\w+` run after the leading `\s+` run of a tag tail. -/
def tagWord (u : List Char) : List Char := (u.dropWhile isPySpace).takeWhile isPyWord

/-- What remains of a tag tail after the `\s+(\w+)` part. -/
def tagWordRest (u : List Char) : List Char := (u.dropWhile isPySpace).dropWhile isPyWord

/-- Length of the maximal whitespace run at the head of `v`. -/
def wsRunLen (v : List Char) : Nat := (v.takeWhile isPySpace).length

/-- The tail `\s+(\w+)\s+([^\]]+)\]` shared by the SCRIPT and TEMPLATE
opening tags: whitespace, a word (group 1), whitespace, then a non-empty
run of non-`]` characters (group 2) up to the closing `]`. -/
def openTagTail (u : List Char) : Option ((List Char × List Char) × List Char) :=
  if u.takeWhile isPySpace = [] then none
  else if tagWord u = [] then none
  else
    match splitFirst [']'] (tagWordRest u) with
    | none => none
    | some (pre, post) =>
      if 1 ≤ wsRunLen (tagWordRest u) ∧ 2 ≤ pre.length then
        some ((tagWord u,
          pre.drop (min (wsRunLen (tagWordRest u)) (pre.length - 1))), post)
      else none

theorem tagWordRest_length_le (u : List Char) : (tagWordRest u).length ≤ u.length := by
  unfold tagWordRest
  exact Nat.le_trans (List.dropWhile_sublist _).length_le
    (List.dropWhile_sublist _).length_le

theorem openTagTail_length {u : List Char} {p : List Char × List Char}
    {rest : List Char} (h : openTagTail u = some (p, rest)) :
    rest.length ≤ u.length := by
  unfold openTagTail at h
  by_cases h1 : u.takeWhile isPySpace = []
  · simp [h1] at h
  · rw [if_neg h1] at h
    by_cases h2 : tagWord u = []
    · simp [h2] at h
    · rw [if_neg h2] at h
      rcases h3 : splitFirst [']'] (tagWordRest u) with _ | ⟨pre, post⟩
      · rw [h3] at h; exact absurd h (by simp)
      · rw [h3] at h
        dsimp only at h
        by_cases h4 : 1 ≤ wsRunLen (tagWordRest u) ∧ 2 ≤ pre.length
        · rw [if_pos h4] at h
          obtain ⟨hp, hr⟩ := Prod.mk.injEq .. ▸ Option.some.injEq .. ▸ h
          subst hr
          have hs := splitFirst_spec _ _ _ _ h3
          have hle := tagWordRest_length_le u
          have : (tagWordRest u).length = pre.length + 1 + post.length := by
            rw [hs]; simp [List.length_append]; omega
          omega
        · rw [if_neg h4] at h; exact absurd h (by simp)

/-- The tail `\s+(\w+)(?:\s+([^\]]+))?\]` of the QUICKCMD and DEVOPS tags:
whitespace, a word (group 1), then either whitespace and a non-empty group 2
before the `]`, or the `]` directly. -/
def quickTagTail (u : List Char) :
    Option ((List Char × Option (List Char)) × List Char) :=
  if u.takeWhile isPySpace = [] then none
  else if tagWord u = [] then none
  else
    match splitFirst [']'] (tagWordRest u) with
    | none => none
    | some (pre, post) =>
      if 1 ≤ wsRunLen (tagWordRest u) ∧ 2 ≤ pre.length then
        some ((tagWord u,
          some (pre.drop (min (wsRunLen (tagWordRest u)) (pre.length - 1)))), post)
      else if pre = [] then some ((tagWord u, none), post)
      else none

theorem quickTagTail_length {u : List Char}
    {p : List Char × Option (List Char)} {rest : List Char}
    (h : quickTagTail u = some (p, rest)) : rest.length ≤ u.length := by
  unfold quickTagTail at h
  by_cases h1 : u.takeWhile isPySpace = []
  · simp [h1] at h
  · rw [if_neg h1] at h
    by_cases h2 : tagWord u = []
    · simp [h2] at h
    · rw [if_neg h2] at h
      rcases h3 : splitFirst [']'] (tagWordRest u) with _ | ⟨pre, post⟩
      · rw [h3] at h; exact absurd h (by simp)
      · rw [h3] at h
        dsimp only at h
        have hs := splitFirst_spec _ _ _ _ h3
        have hle := tagWordRest_length_le u
        have hlen : (tagWordRest u).length = pre.length + 1 + post.length := by
          rw [hs]; simp [List.length_append]; omega
        by_cases h4 : 1 ≤ wsRunLen (tagWordRest u) ∧ 2 ≤ pre.length
        · rw [if_pos h4] at h
          obtain ⟨hp, hr⟩ := Prod.mk.injEq .. ▸ Option.some.injEq .. ▸ h
          subst hr
          omega
        · rw [if_neg h4] at h
          by_cases h5 : pre = ([] : List Char)
          · rw [if_pos h5] at h
            obtain ⟨hp, hr⟩ := Prod.mk.injEq .. ▸ Option.some.injEq .. ▸ h
            subst hr
            omega
          · rw [if_neg h5] at h; exact absurd h (by simp)

/-- Tail of the EXEC pattern: the lazy body runs to the first `[/EXEC]`. -/
def execTail (post : List Char) : Option (List Char × List Char) :=
  splitFirst "[/EXEC]".toList post

theorem execTail_length {post : List Char} {a rest : List Char}
    (h : execTail post = some (a, rest)) : rest.length ≤ post.length := by
  have hs := splitFirst_spec _ _ _ _ h
  have : post.length = a.length + "[/EXEC]".toList.length + rest.length := by
    rw [hs]; simp [List.length_append]; omega
  omega

/-- Tail of the SCRIPT pattern: the open-tag tail, then the lazy body up to
the first `[/SCRIPT]`. -/
def scriptTail (post : List Char) :
    Option ((List Char × List Char × List Char) × List Char) :=
  match openTagTail post with
  | none => none
  | some ((kind, fname), rest1) =>
    match splitFirst "[/SCRIPT]".toList rest1 with
    | none => none
    | some (body, rest2) => some ((kind, fname, body), rest2)

theorem scriptTail_length {post : List Char}
    {p : List Char × List Char × List Char} {rest : List Char}
    (h : scriptTail post = some (p, rest)) : rest.length ≤ post.length := by
  unfold scriptTail at h
  rcases h1 : openTagTail post with _ | ⟨⟨kind, fname⟩, rest1⟩
  · rw [h1] at h; exact absurd h (by simp)
  · rw [h1] at h
    dsimp only at h
    rcases h2 : splitFirst "[/SCRIPT]".toList rest1 with _ | ⟨body, rest2⟩
    · rw [h2] at h; exact absurd h (by simp)
    · rw [h2] at h
      obtain ⟨hp, hr⟩ := Prod.mk.injEq .. ▸ Option.some.injEq .. ▸ h
      subst hr
      have hle1 := openTagTail_length h1
      have hs := splitFirst_spec _ _ _ _ h2
      have : rest1.length = body.length + "[/SCRIPT]".toList.length + rest2.length := by
        rw [hs]; simp [List.length_append]; omega
      omega

/-- The five scans of `process_response`, each returning the match payloads
in document order and the input with the matched spans removed. -/
def scanExec (s : List Char) : List (List Char) × List Char :=
  scanCore "[EXEC]".toList execTail s

/-- SCRIPT scan (payloads `(kind, filename, body)`, raw groups). -/
def scanScript (s : List Char) :
    List (List Char × List Char × List Char) × List Char :=
  scanCore "[SCRIPT".toList scriptTail s

/-- TEMPLATE scan (payloads `(kind, filename)`, raw groups). -/
def scanTemplate (s : List Char) :
    List (List Char × List Char) × List Char :=
  scanCore "[TEMPLATE".toList openTagTail s

/-- QUICKCMD scan (payloads `(name, optional raw argument text)`). -/
def scanQuickCmd (s : List Char) :
    List (List Char × Option (List Char)) × List Char :=
  scanCore "[QUICKCMD".toList quickTagTail s

/-- DEVOPS scan (payloads `(name, optional raw argument text)`). -/
def scanDevops (s : List Char) :
    List (List Char × Option (List Char)) × List Char :=
  scanCore "[DEVOPS".toList quickTagTail s

/-- A directive extracted from a model response. -/
inductive Directive : Type where
  | exec (command : List Char) : Directive
  | script (kind fname body : List Char) : Directive
  | template (kind fname : List Char) : Directive
  | quickcmd (name : List Char) (args : List (List Char)) : Directive
  | devops (name : List Char) (args : List (List Char)) : Directive
deriving DecidableEq, Repr

/-- `match.group(2).strip().split() if match.group(2) else []` for the
QUICKCMD/DEVOPS argument text. -/
def argSplit : Option (List Char) → List (List Char)
  | none => []
  | some a => pySplitWS (pyStrip a)

/-- The directives of a response, in the order `process_response` acts on
them: all EXEC matches first, then all SCRIPT, TEMPLATE, QUICKCMD and DEVOPS
matches, each family in document order (the five `re.finditer` loops run in
this fixed sequence over the same response).  Groups are stripped exactly as
the source does. -/
def responseDirectives (response : List Char) : List Directive :=
  ((scanExec response).1.map (fun b => Directive.exec (pyStrip b))) ++
  ((scanScript response).1.map (fun p =>
    Directive.script (pyStrip p.1) (pyStrip p.2.1) (pyStrip p.2.2))) ++
  ((scanTemplate response).1.map (fun p =>
    Directive.template (pyStrip p.1) (pyStrip p.2))) ++
  ((scanQuickCmd response).1.map (fun p =>
    Directive.quickcmd (pyStrip p.1) (argSplit p.2))) ++
  ((scanDevops response).1.map (fun p =>
    Directive.devops (pyStrip p.1) (argSplit p.2)))

/-- The prose shown to the operator: the five `re.sub` calls applied in
sequence (each to the result of the previous one), then `strip()`. -/
def cleanProse (response : List Char) : List Char :=
  pyStrip (scanDevops (scanQuickCmd (scanTemplate (scanScript
    (scanExec response).2).2).2).2).2

/-! ## The bounded conversation history
(`agent_admin/linux_assistant/context_manager.py`) -/

/-- A message of the `agent_admin` context manager:
`{"role": ..., "content": ..., "timestamp": ...}`. -/
structure CMMessage : Type where
  role : List Char
  content : List Char
  timestamp : List Char
deriving DecidableEq, Repr

/-- `ContextManager.add_message`: append, then trim to the last
`history_size` entries via `self.messages[-self.history_size:]` whenever the
length exceeds the bound (`pySliceLast` keeps Python's `[-0:]` behaviour).
The synchronous `_save_history` persists the result and does not affect the
in-memory list. -/
def addMessage (historySize : Nat) (messages : List CMMessage) (m : CMMessage) :
    List CMMessage :=
  let appended := messages ++ [m]
  if appended.length > historySize then pySliceLast appended historySize
  else appended

/-- A whole conversation folded through `add_message` from a starting
history. -/
def addMessages (historySize : Nat) (messages : List CMMessage)
    (ms : List CMMessage) : List CMMessage :=
  ms.foldl (addMessage historySize) messages

/-! ## Named context snapshots (`save_context` / `load_context`, v04)

`CONTEXT_FILE` holds a JSON object mapping snapshot names to
`{"history": ..., "current_dir": ..., "system_message": ..., "timestamp": ...}`.
`json.dump` writes a deep copy, so the store is modelled as a pure
association list; a missing file behaves like the empty store (every load
fails), and I/O errors (caught, returning `False`) are outside the model. -/

/-- One stored context bundle. -/
structure ContextV04 : Type where
  history : List (List Char × List Char)
  currentDir : List Char
  systemMessage : List Char
  timestamp : List Char
deriving DecidableEq, Repr

/-- The in-memory session fields that `save_context`/`load_context` read and
write: `self.conversation_history`, `self.current_dir`,
`self.system_message`. -/
structure SessionV04 : Type where
  conversationHistory : List (List Char × List Char)
  currentDir : List Char
  systemMessage : List Char
deriving DecidableEq, Repr

/-- `MistralAgent.save_context(name)`: read the store, set
`contexts[name] = {history, current_dir, system_message, timestamp}`,
write it back (overwriting an existing entry of the same name). -/
def saveContext (store : List (List Char × ContextV04)) (s : SessionV04)
    (name ts : List Char) : List (List Char × ContextV04) :=
  dictInsert store name
    { history := s.conversationHistory, currentDir := s.currentDir,
      systemMessage := s.systemMessage, timestamp := ts }

/-- `MistralAgent.load_context(name)`: on a hit, replace the three session
fields from the stored bundle, falling back to `os.getcwd()` (`procCwd`)
when the stored directory no longer exists (`isDir`); on a miss return
`False` and leave the session unchanged. -/
def loadContext (store : List (List Char × ContextV04)) (s : SessionV04)
    (name : List Char) (isDir : List Char → Bool) (procCwd : List Char) :
    Bool × SessionV04 :=
  match store.find? (fun kv => kv.1 = name) with
  | none => (false, s)
  | some (_, ctx) =>
    let s' : SessionV04 :=
      { conversationHistory := ctx.history, currentDir := ctx.currentDir,
        systemMessage := ctx.systemMessage }
    if isDir s'.currentDir then (true, s')
    else (true, { s' with currentDir := procCwd })

/-! ## Helper lemmas about the execution engines -/

/-- Declining a dangerous non-`cd` command in v05: the engine returns the
cancellation message, spawns nothing, and the state is the one left by the
command-history recording that already happened before the gate. -/
theorem executeCommandV05_declined (isDir : List Char → Bool)
    (runner : List Char → List Char → Int × List Char × List Char)
    (ts : List Char) (st : AgentStateV05) (cmd₀ : List Char)
    (hcd : pyStartsWith (pyStrip (aliasExpandV05 st.config.aliases cmd₀))
      "cd ".toList = false)
    (hd : isDangerousV05 (aliasExpandV05 st.config.aliases cmd₀) = .ok true) :
    executeCommandV05 isDir runner false ts st cmd₀ =
      .ok { output := "Commande annulée par l'utilisateur.".toList,
            state := recordCommandHistoryV05 ts st
              (aliasExpandV05 st.config.aliases cmd₀),
            spawned := [] } := by
  unfold executeCommandV05
  dsimp only
  rw [hcd, hd]
  rfl

/-- Declining a dangerous non-`cd` command in v04: the engine returns the
cancellation message, spawns nothing, and the state is exactly unchanged. -/
theorem executeCommandV04_declined (isDir : List Char → Bool)
    (runner : List Char → List Char → Int × List Char × List Char)
    (home : List Char) (st : AgentStateV04) (cmd₀ cmd : List Char)
    (hal : aliasExpandV04 st.aliases cmd₀ = .ok cmd)
    (hcd : pyStartsWith (pyStrip cmd) "cd ".toList = false)
    (hd : isDangerousV04 st.dangerousCommands cmd = .ok true) :
    executeCommandV04 isDir runner false home st cmd₀ =
      .ok { output := "Commande annulée par l'utilisateur.".toList,
            state := st, spawned := [] } := by
  unfold executeCommandV04
  rw [hal, show (Except.ok cmd : Except PyExn (List Char)) = pure cmd from rfl,
    pure_bind]
  rw [hcd, hd]
  rfl

/-- The `cd` branch of v05's `execute_command`: target resolution, the two
outcomes, the system-info refresh on success, no confirmation involved. -/
theorem executeCommandV05_cd (isDir : List Char → Bool)
    (runner : List Char → List Char → Int × List Char × List Char)
    (confirm : Bool) (ts : List Char) (st : AgentStateV05) (cmd₀ : List Char)
    (hcd : pyStartsWith (pyStrip (aliasExpandV05 st.config.aliases cmd₀))
      "cd ".toList = true) :
    executeCommandV05 isDir runner confirm ts st cmd₀ =
      (let command := aliasExpandV05 st.config.aliases cmd₀
       let target := pyStrip ((pyStrip command).drop 3)
       let newDir := pyAbspath st.processCwd
         (if pyStartsWith target ['/'] then target
          else pyJoin st.currentDir target)
       if isDir newDir then
         .ok { output := "Répertoire courant : ".toList ++ newDir,
               state := { st with currentDir := newDir, processCwd := newDir },
               spawned := systemInfoCommands }
       else
         .ok { output := "Erreur: Le répertoire ".toList ++ newDir ++
                         " n'existe pas.".toList,
               state := st, spawned := [] }) := by
  unfold executeCommandV05
  dsimp only
  rw [hcd]
  rfl

/-- The `cd` branch of v04's `execute_command`: same outcomes, with `~`
expansion and no subprocess at all. -/
theorem executeCommandV04_cd (isDir : List Char → Bool)
    (runner : List Char → List Char → Int × List Char × List Char)
    (confirm : Bool) (home : List Char) (st : AgentStateV04) (cmd₀ cmd : List Char)
    (hal : aliasExpandV04 st.aliases cmd₀ = .ok cmd)
    (hcd : pyStartsWith (pyStrip cmd) "cd ".toList = true) :
    executeCommandV04 isDir runner confirm home st cmd₀ =
      (let target := pyStrip ((pyStrip cmd).drop 3)
       let newDir := pyAbspath st.processCwd
         (if pyStartsWith target ['/'] then target
          else if pyStartsWith target ['~'] then pyExpanduser home target
          else pyJoin st.currentDir target)
       if isDir newDir then
         .ok { output := "Répertoire courant : ".toList ++ newDir,
               state := { st with currentDir := newDir, processCwd := newDir },
               spawned := [] }
       else
         .ok { output := "Erreur: Le répertoire ".toList ++ newDir ++
                         " n'existe pas.".toList,
               state := st, spawned := [] }) := by
  unfold executeCommandV04
  rw [hal, show (Except.ok cmd : Except PyExn (List Char)) = pure cmd from rfl,
    pure_bind]
  rw [hcd]
  rfl

/-- A configuration with no aliases, custom commands or recorded history. -/
def emptyConfigV05 : ConfigV05 :=
  { aliases := [], customCommands := [], commandHistory := [] }

/-- A small concrete v05 session used by the witnesses: working directory
`/a/b`, empty configuration, empty conversation. -/
def exampleStateV05 : AgentStateV05 :=
  { currentDir := "/a/b".toList, processCwd := "/a/b".toList,
    config := emptyConfigV05, persistedConfig := emptyConfigV05,
    conversationHistory := [] }

/-! ## Claim C1 — the redirection rule of the safety classifier -/

/-- C1, counterexample: the claim says `classify("echo hi > /tmp/out.txt")`
is safe because `/tmp/` is not a protected prefix; in fact v05's
`is_dangerous_command` classifies it dangerous (the `">" in command` test
has no path condition at all), and `check_command_safety` (safety.py) puts
it in `unsafe_commands` for the same reason (`'>'` is in its substring
pattern list, making its system-path branch unreachable for `>`). -/
theorem C1_counterexample :
    isDangerousV05 "echo hi > /tmp/out.txt".toList = .ok true ∧
    checkCommandSafety ["echo hi > /tmp/out.txt".toList] =
      ([], ["echo hi > /tmp/out.txt".toList]) := by
  constructor
  · rfl
  · rfl

/-- C1, amended: any command containing `>` (anywhere, whatever the target
path) is classified dangerous by v05 once it tokenizes into a non-empty
token list, and is put into `unsafe_commands` by safety.py; the spec's other
three examples behave as stated (`rm -rf /` and `echo hi > /etc/passwd`
dangerous, `ls -la` safe), but `echo hi > /tmp/out.txt` is dangerous, not
safe. -/
theorem C1_amended :
    (∀ s base parts, shlexSplit s = .ok (base :: parts) →
      pyContains s ['>'] = true → isDangerousV05 s = .ok true) ∧
    isDangerousV05 "rm -rf /".toList = .ok true ∧
    isDangerousV05 "ls -la".toList = .ok false ∧
    isDangerousV05 "echo hi > /etc/passwd".toList = .ok true ∧
    isDangerousV05 "echo hi > /tmp/out.txt".toList = .ok true ∧
    (∀ s, pyContains s ['>'] = true → isSafeCommandSafety s = false) := by
  refine ⟨?_, by rfl, by rfl, by rfl, by rfl, ?_⟩
  · intro s base parts hsp hgt
    unfold isDangerousV05
    rw [hsp, show (Except.ok (base :: parts) :
        Except ShlexErr (List (List Char))) = pure (base :: parts) from rfl,
      pure_bind]
    by_cases hmem : base ∈ dangerousCommandsV05
    · simp [hmem]
      rfl
    · simp [hmem, hgt]
      rfl
  · intro s h
    unfold isSafeCommandSafety
    have hany : dangerousPatternsSafety.any (fun d => pyContains s d) = true := by
      apply List.any_eq_true.mpr
      exact ⟨['>'], by decide, h⟩
    rw [hany]
    rfl

/-- C1, witness for the quantified parts of the amended claim, at the
command `cat /x > /y`. -/
theorem C1_witness :
    isDangerousV05 "cat /x > /y".toList = .ok true ∧
    isSafeCommandSafety "cat /x > /y".toList = false := by
  constructor
  · exact C1_amended.1 "cat /x > /y".toList "cat".toList
      ["/x".toList, ">".toList, "/y".toList] (by rfl) (by rfl)
  · exact C1_amended.2.2.2.2.2 "cat /x > /y".toList (by rfl)

/-! ## Claim C5 — classifier behaviour on unparseable commands -/

/-- C5, counterexample: the claim says the classifier returns
dangerous("unparseable") when tokenization fails; in fact `shlex.split` is
called with no handler, so `is_dangerous_command("echo \"hi")` raises
`ValueError("No closing quotation")` instead of returning anything. -/
theorem C5_counterexample :
    isDangerousV05 "echo \"hi".toList = .error .noClosingQuotation ∧
    (∀ b, isDangerousV05 "echo \"hi".toList ≠ .ok b) := by
  refine ⟨by rfl, ?_⟩
  intro b h
  rw [show isDangerousV05 "echo \"hi".toList = .error .noClosingQuotation
    from rfl] at h
  exact absurd h (by simp)

/-- C5, amended: the classifier is pure and executes nothing, but it is not
total as the claim states: a tokenization failure (unbalanced quote, or
trailing escape) propagates as the `shlex` `ValueError`, in both v05 and
v04 (the latter only reaches `shlex.split` on a non-empty command). -/
theorem C5_amended :
    (∀ s e, shlexSplit s = .error e → isDangerousV05 s = .error e) ∧
    (∀ s e, s ≠ [] → shlexSplit s = .error e →
      isDangerousV04 dangerousCommandsV04 s = .error e) := by
  constructor
  · intro s e h
    unfold isDangerousV05
    rw [h]
    rfl
  · intro s e hne h
    unfold isDangerousV04
    rw [if_neg hne, h]
    rfl

/-- C5, witness at the unbalanced command `echo "hi`. -/
theorem C5_witness :
    isDangerousV05 "echo \"hi".toList = .error .noClosingQuotation ∧
    isDangerousV04 dangerousCommandsV04 "echo \"hi".toList =
      .error .noClosingQuotation := by
  constructor
  · exact C5_amended.1 "echo \"hi".toList .noClosingQuotation (by rfl)
  · exact C5_amended.2 "echo \"hi".toList .noClosingQuotation (by simp) (by rfl)

/-! ## Claim C6 — the bounded conversation history -/

/-- C6, counterexample: with the configured bound `history_size = 0`, one
`add_message` on an empty history leaves 1 message, not at most 0: Python's
trim `self.messages[-0:]` is the whole list, so the bound is never applied.
-/
theorem C6_counterexample :
    (addMessage 0 []
      { role := "user".toList, content := "hi".toList,
        timestamp := "t".toList }).length = 1 := by rfl

/-- Appending one message to the result of trimming keeps the "`N` most
recent" shape, for a positive bound. -/
theorem addMessage_drop (N : Nat) (hN : 1 ≤ N) (ms : List CMMessage)
    (m : CMMessage) :
    addMessage N (ms.drop (ms.length - N)) m =
      (ms ++ [m]).drop (ms.length + 1 - N) := by
  unfold addMessage
  by_cases hlt : ms.length < N
  · have h0 : ms.length - N = 0 := by omega
    have h1 : ms.length + 1 - N = 0 := by omega
    rw [h0, h1, List.drop_zero, List.drop_zero]
    rw [if_neg (by simp; omega)]
  · have hge : N ≤ ms.length := by omega
    have hd : (ms.drop (ms.length - N)).length = N := by
      rw [List.length_drop]; omega
    rw [if_pos (by rw [List.length_append, hd]; simp)]
    unfold pySliceLast
    rw [if_neg (by omega)]
    rw [List.length_append, hd]
    have h2 : N + 1 - N = 1 := by omega
    simp only [List.length_cons, List.length_nil]
    rw [h2]
    rw [List.drop_append_eq_append_drop, List.drop_append_eq_append_drop]
    rw [List.drop_drop, hd]
    have h3 : ms.length - N + 1 = ms.length + 1 - N := by omega
    have h4 : (1 : Nat) - N = 0 := by omega
    have h5 : ms.length + 1 - N - ms.length = 0 := by omega
    rw [h3, h4, h5]

/-- C6, amended: for every positive bound `N ≥ 1`, each `add_message` leaves
at most `N` messages, and appending any sequence of messages to an initially
empty history leaves exactly the most recent `N` of them, in original
relative order (eviction from the front); in particular appending `N + 5`
messages with `N = 3` keeps the last 3.  (For `N = 0` the bound is never
enforced, per the counterexample.) -/
theorem C6_amended :
    (∀ (N : Nat) (msgs : List CMMessage) (m : CMMessage), 1 ≤ N →
      (addMessage N msgs m).length ≤ N) ∧
    (∀ (N : Nat) (ms : List CMMessage), 1 ≤ N →
      addMessages N [] ms = ms.drop (ms.length - N)) := by
  constructor
  · intro N msgs m hN
    unfold addMessage
    by_cases h : (msgs ++ [m]).length > N
    · rw [if_pos h]
      unfold pySliceLast
      rw [if_neg (by omega)]
      rw [List.length_drop]
      omega
    · rw [if_neg h]
      omega
  · intro N ms hN
    induction ms using List.reverseRecOn with
    | nil => simp [addMessages]
    | append_singleton ms m ih =>
      unfold addMessages
      rw [List.foldl_append]
      have : ms.foldl (addMessage N) [] = ms.drop (ms.length - N) := ih
      rw [this]
      simp only [List.foldl_cons, List.foldl_nil]
      rw [addMessage_drop N hN ms m]
      simp [List.length_append]

/-- C6, witness: bound 3, eight messages, the last three survive in order.
-/
theorem C6_witness :
    addMessages 3 []
      ([1, 2, 3, 4, 5, 6, 7, 8].map (fun i =>
        { role := "user".toList, content := (toString i).toList,
          timestamp := "t".toList })) =
      [6, 7, 8].map (fun i =>
        { role := "user".toList, content := (toString i).toList,
          timestamp := "t".toList }) := by
  have h := C6_amended.2 3
    ([1, 2, 3, 4, 5, 6, 7, 8].map (fun i =>
      { role := "user".toList, content := (toString i).toList,
        timestamp := "t".toList })) (by omega)
  rw [h]
  rfl

/-! ## Claim C9 — snapshot round-trip -/

/-- `find?` on a cons whose head satisfies the predicate. -/
theorem find?_cons_pos {V : Type} (p : List Char × V → Bool)
    (a : List Char × V) (l : List (List Char × V)) (h : p a = true) :
    (a :: l).find? p = some a := by
  simp [List.find?, h]

/-- `find?` on a cons whose head fails the predicate. -/
theorem find?_cons_neg {V : Type} (p : List Char × V → Bool)
    (a : List Char × V) (l : List (List Char × V)) (h : p a = false) :
    (a :: l).find? p = l.find? p := by
  simp [List.find?, h]

/-- Looking up a key right after `d[k] = v` yields `v`. -/
theorem dictInsert_find {V : Type} (store : List (List Char × V))
    (name : List Char) (v : V) :
    (dictInsert store name v).find? (fun kv => kv.1 = name) = some (name, v) := by
  unfold dictInsert
  by_cases h : store.any (fun kv => kv.1 = name)
  · rw [if_pos h]
    induction store with
    | nil => simp at h
    | cons kv rest ih =>
      by_cases hk : kv.1 = name
      · simp only [List.map_cons, if_pos hk]
        exact find?_cons_pos _ _ _ (by simp)
      · simp only [List.map_cons, if_neg hk]
        rw [find?_cons_neg _ _ _ (by simp [hk])]
        apply ih
        rw [List.any_cons] at h
        have hpkv : decide (kv.1 = name) = false := by simp [hk]
        rw [hpkv, Bool.false_or] at h
        exact h
  · rw [if_neg h]
    induction store with
    | nil => exact find?_cons_pos _ _ _ (by simp)
    | cons kv rest ih =>
      rw [List.any_cons] at h
      have hb := Bool.eq_false_iff.mpr h
      obtain ⟨h1, h2⟩ := Bool.or_eq_false_iff.mp hb
      rw [List.cons_append, find?_cons_neg _ _ _ h1]
      apply ih
      rw [h2]
      simp

/-- Assigning the same key twice keeps only the second binding. -/
theorem dictInsert_overwrite {V : Type} (store : List (List Char × V))
    (k : List Char) (v₁ v₂ : V) :
    dictInsert (dictInsert store k v₁) k v₂ = dictInsert store k v₂ := by
  by_cases h : store.any (fun kv => kv.1 = k)
  · have h1 : dictInsert store k v₁ = store.map
        (fun kv => if kv.1 = k then (k, v₁) else kv) := by
      unfold dictInsert; rw [if_pos h]
    have h2 : (store.map (fun kv => if kv.1 = k then (k, v₁) else kv)).any
        (fun kv => kv.1 = k) = true := by
      obtain ⟨x, hx, hpx⟩ := List.any_eq_true.mp h
      apply List.any_eq_true.mpr
      refine ⟨(k, v₁), List.mem_map.mpr ⟨x, hx, ?_⟩, by simp⟩
      simp at hpx
      simp [hpx]
    rw [h1]
    unfold dictInsert
    rw [if_pos h2, if_pos h, List.map_map]
    apply List.map_congr_left
    intro kv _
    by_cases hk : kv.1 = k
    · simp [hk]
    · simp [hk]
  · have h1 : dictInsert store k v₁ = store ++ [(k, v₁)] := by
      unfold dictInsert; rw [if_neg h]
    have h2 : (store ++ [(k, v₁)]).any (fun kv => kv.1 = k) = true := by
      apply List.any_eq_true.mpr
      exact ⟨(k, v₁), by simp, by simp⟩
    rw [h1]
    unfold dictInsert
    rw [if_pos h2, if_neg h, List.map_append]
    have h3 : store.map (fun kv => if kv.1 = k then (k, v₂) else kv) = store := by
      conv_rhs => rw [← List.map_id store]
      apply List.map_congr_left
      intro kv hkv
      have hne : ¬ kv.1 = k := by
        intro heq
        exact h (List.any_eq_true.mpr ⟨kv, hkv, by simp [heq]⟩)
      simp [hne]
    rw [h3]
    simp

/-- C9, confirmed: saving a snapshot, arbitrarily mutating the session, then
loading the same name restores exactly the saved history, working directory
and system instructions; if the saved directory no longer exists the
restored working directory falls back to the process's current directory;
saving again under the same name overwrites the previous snapshot. -/
theorem C9_snapshot_roundtrip :
    (∀ (store : List (List Char × ContextV04)) (s smut : SessionV04)
      (name ts : List Char) (isDir : List Char → Bool) (procCwd : List Char),
      isDir s.currentDir = true →
      loadContext (saveContext store s name ts) smut name isDir procCwd =
        (true, s)) ∧
    (∀ (store : List (List Char × ContextV04)) (s smut : SessionV04)
      (name ts : List Char) (isDir : List Char → Bool) (procCwd : List Char),
      isDir s.currentDir = false →
      loadContext (saveContext store s name ts) smut name isDir procCwd =
        (true, { conversationHistory := s.conversationHistory,
                 currentDir := procCwd,
                 systemMessage := s.systemMessage })) ∧
    (∀ (store : List (List Char × ContextV04)) (s₁ s₂ : SessionV04)
      (name ts₁ ts₂ : List Char),
      saveContext (saveContext store s₁ name ts₁) s₂ name ts₂ =
        saveContext store s₂ name ts₂) := by
  refine ⟨?_, ?_, ?_⟩
  · intro store s smut name ts isDir procCwd hdir
    unfold loadContext saveContext
    rw [dictInsert_find]
    simp [hdir]
  · intro store s smut name ts isDir procCwd hdir
    unfold loadContext saveContext
    rw [dictInsert_find]
    simp [hdir]
  · intro store s₁ s₂ name ts₁ ts₂
    unfold saveContext
    exact dictInsert_overwrite ..

/-- C9, witness: a snapshot named `ticket42` taken in `/w`, session then
mutated, loaded back; once with `/w` still existing, once after it is gone
(falling back to `/p`). -/
theorem C9_witness :
    loadContext
      (saveContext [] { conversationHistory := [("user".toList, "hi".toList)],
                        currentDir := "/w".toList,
                        systemMessage := "sys".toList } "ticket42".toList "t1".toList)
      { conversationHistory := [], currentDir := "/x".toList,
        systemMessage := "other".toList }
      "ticket42".toList (fun d => d = "/w".toList) "/p".toList =
      (true, { conversationHistory := [("user".toList, "hi".toList)],
               currentDir := "/w".toList, systemMessage := "sys".toList }) ∧
    loadContext
      (saveContext [] { conversationHistory := [("user".toList, "hi".toList)],
                        currentDir := "/w".toList,
                        systemMessage := "sys".toList } "ticket42".toList "t1".toList)
      { conversationHistory := [], currentDir := "/x".toList,
        systemMessage := "other".toList }
      "ticket42".toList (fun _ => false) "/p".toList =
      (true, { conversationHistory := [("user".toList, "hi".toList)],
               currentDir := "/p".toList, systemMessage := "sys".toList }) := by
  constructor
  · exact C9_snapshot_roundtrip.1 [] _ _ "ticket42".toList "t1".toList
      (fun d => d = "/w".toList) "/p".toList (by rfl)
  · exact C9_snapshot_roundtrip.2.1 [] _ _ "ticket42".toList "t1".toList
      (fun _ => false) "/p".toList (by rfl)

/-! ## Claim C3 — the `cd` pseudo-command -/

/-- C3, counterexample: the claim covers every command starting with `cd`
"optionally followed by whitespace and a path", but the engines special-case
only `command.strip().startswith("cd ")`.  A bare `cd` therefore reaches
`subprocess.Popen` (a process is spawned) and the tracked directory is not
touched. -/
theorem C3_counterexample :
    (executeCommandV05 (fun _ => true) (fun _ _ => (0, "".toList, "".toList))
      true "T".toList exampleStateV05 "cd".toList).map
      (fun r => (r.spawned, r.state.currentDir)) =
      .ok ([" cd".toList.drop 1], "/a/b".toList) := by rfl

/-- C3, amended: for commands whose (alias-expanded) stripped text starts
with `cd ` (`cd`, one space, a path), no process is spawned for the command
itself: v04 spawns nothing at all, v05 spawns only the fixed system-info
refresh commands on success.  The target is absolute when it starts with
`/`; a `~` prefix is expanded against `$HOME` in v04 but treated as a
relative name in v05; `.`/`..` are resolved; an existing directory mutates
the tracked cwd and returns it in the success message, otherwise the cwd is
untouched and a "does not exist" message is returned.  No confirmation is
consulted.  Concretely (v05): `cd ..` from `/a/b` yields `/a`;
`cd /nonexistent` leaves `/a/b`; `cd ~` resolves to the relative `/a/b/~`.
-/
theorem C3_amended :
    (∀ (isDir : List Char → Bool) runner (confirm : Bool)
      (home : List Char) (st : AgentStateV04) (cmd₀ cmd : List Char),
      aliasExpandV04 st.aliases cmd₀ = .ok cmd →
      pyStartsWith (pyStrip cmd) "cd ".toList = true →
      (let target := pyStrip ((pyStrip cmd).drop 3)
       let newDir := pyAbspath st.processCwd
         (if pyStartsWith target ['/'] then target
          else if pyStartsWith target ['~'] then pyExpanduser home target
          else pyJoin st.currentDir target)
       (isDir newDir = true →
         executeCommandV04 isDir runner confirm home st cmd₀ =
           .ok { output := "Répertoire courant : ".toList ++ newDir,
                 state := { st with currentDir := newDir, processCwd := newDir },
                 spawned := [] }) ∧
       (isDir newDir = false →
         executeCommandV04 isDir runner confirm home st cmd₀ =
           .ok { output := "Erreur: Le répertoire ".toList ++ newDir ++
                           " n'existe pas.".toList,
                 state := st, spawned := [] }))) ∧
    (∀ (isDir : List Char → Bool) runner (confirm : Bool)
      (ts : List Char) (st : AgentStateV05) (cmd₀ : List Char),
      pyStartsWith (pyStrip (aliasExpandV05 st.config.aliases cmd₀))
        "cd ".toList = true →
      (let command := aliasExpandV05 st.config.aliases cmd₀
       let target := pyStrip ((pyStrip command).drop 3)
       let newDir := pyAbspath st.processCwd
         (if pyStartsWith target ['/'] then target
          else pyJoin st.currentDir target)
       (isDir newDir = true →
         executeCommandV05 isDir runner confirm ts st cmd₀ =
           .ok { output := "Répertoire courant : ".toList ++ newDir,
                 state := { st with currentDir := newDir, processCwd := newDir },
                 spawned := systemInfoCommands }) ∧
       (isDir newDir = false →
         executeCommandV05 isDir runner confirm ts st cmd₀ =
           .ok { output := "Erreur: Le répertoire ".toList ++ newDir ++
                           " n'existe pas.".toList,
                 state := st, spawned := [] }))) ∧
    (executeCommandV05 (fun d => d = "/a".toList)
      (fun _ _ => (0, "".toList, "".toList)) false "T".toList
      exampleStateV05 "cd ..".toList).map
      (fun r => (r.state.currentDir, r.output)) =
      .ok ("/a".toList, "Répertoire courant : /a".toList) ∧
    (executeCommandV05 (fun d => d = "/a".toList)
      (fun _ _ => (0, "".toList, "".toList)) false "T".toList
      exampleStateV05 "cd /nonexistent".toList).map
      (fun r => (r.state.currentDir, r.output)) =
      .ok ("/a/b".toList,
           "Erreur: Le répertoire /nonexistent n'existe pas.".toList) ∧
    (executeCommandV05 (fun _ => false)
      (fun _ _ => (0, "".toList, "".toList)) false "T".toList
      exampleStateV05 "cd ~".toList).map (fun r => r.output) =
      .ok "Erreur: Le répertoire /a/b/~ n'existe pas.".toList := by
  refine ⟨?_, ?_, by rfl, by rfl, by rfl⟩
  · intro isDir runner confirm home st cmd₀ cmd hal hcd
    have hmain := executeCommandV04_cd isDir runner confirm home st cmd₀ cmd hal hcd
    constructor
    · intro hdir
      rw [hmain]
      simp only [hdir]
      rfl
    · intro hdir
      rw [hmain]
      simp only [hdir]
      rfl
  · intro isDir runner confirm ts st cmd₀ hcd
    have hmain := executeCommandV05_cd isDir runner confirm ts st cmd₀ hcd
    constructor
    · intro hdir
      rw [hmain]
      simp only [hdir]
      rfl
    · intro hdir
      rw [hmain]
      simp only [hdir]
      rfl

/-- C3, witness: v04 `cd ~/x` with `$HOME = /home/u` from `/a/b`, and the
two quantified branches exercised at concrete inputs. -/
theorem C3_witness :
    executeCommandV04 (fun d => d = "/home/u/x".toList)
      (fun _ _ => (0, "".toList, "".toList)) false "/home/u".toList
      { currentDir := "/a/b".toList, processCwd := "/a/b".toList,
        dangerousCommands := dangerousCommandsV04, aliases := [],
        conversationHistory := [] } "cd ~/x".toList =
      .ok { output := "Répertoire courant : /home/u/x".toList,
            state := { currentDir := "/home/u/x".toList,
                       processCwd := "/home/u/x".toList,
                       dangerousCommands := dangerousCommandsV04, aliases := [],
                       conversationHistory := [] },
            spawned := [] } := by
  exact (C3_amended.1 (fun d => d = "/home/u/x".toList)
    (fun _ _ => (0, "".toList, "".toList)) false "/home/u".toList
    { currentDir := "/a/b".toList, processCwd := "/a/b".toList,
      dangerousCommands := dangerousCommandsV04, aliases := [],
      conversationHistory := [] } "cd ~/x".toList "cd ~/x".toList
    (by rfl) (by rfl)).1 (by rfl)

/-! ## Claim C4 — declining the confirmation gate -/

/-- C4, counterexample: declining the gate for `rm -rf /` in v05 does return
the cancellation message and spawn nothing, but the session state is not
"exactly as before": the command was already appended to the persisted
command history (and the configuration file rewritten) before the gate. -/
theorem C4_counterexample :
    (executeCommandV05 (fun _ => false) (fun _ _ => (0, "".toList, "".toList))
      false "T".toList exampleStateV05 "rm -rf /".toList).map
      (fun r => (r.output, r.spawned, r.state.config.commandHistory,
                 r.state.persistedConfig.commandHistory)) =
      .ok ("Commande annulée par l'utilisateur.".toList, [],
           [("rm -rf /".toList, "T".toList, "/a/b".toList)],
           [("rm -rf /".toList, "T".toList, "/a/b".toList)]) ∧
    exampleStateV05.config.commandHistory = [] := by
  exact ⟨by rfl, by rfl⟩

/-- C4, amended: declining a dangerous command yields the "cancelled by
operator" result with no process spawned in both engines; v04 leaves the
session state exactly unchanged, while v05 has already recorded the command
into the persisted command history before consulting the gate (tracked cwd,
conversation history, aliases and custom commands are still untouched). -/
theorem C4_amended :
    (∀ (isDir : List Char → Bool) runner (home : List Char)
      (st : AgentStateV04) (cmd₀ cmd : List Char),
      aliasExpandV04 st.aliases cmd₀ = .ok cmd →
      pyStartsWith (pyStrip cmd) "cd ".toList = false →
      isDangerousV04 st.dangerousCommands cmd = .ok true →
      executeCommandV04 isDir runner false home st cmd₀ =
        .ok { output := "Commande annulée par l'utilisateur.".toList,
              state := st, spawned := [] }) ∧
    (∀ (isDir : List Char → Bool) runner (ts : List Char)
      (st : AgentStateV05) (cmd₀ : List Char),
      pyStartsWith (pyStrip (aliasExpandV05 st.config.aliases cmd₀))
        "cd ".toList = false →
      isDangerousV05 (aliasExpandV05 st.config.aliases cmd₀) = .ok true →
      executeCommandV05 isDir runner false ts st cmd₀ =
        .ok { output := "Commande annulée par l'utilisateur.".toList,
              state := recordCommandHistoryV05 ts st
                (aliasExpandV05 st.config.aliases cmd₀),
              spawned := [] }) ∧
    (∀ (ts : List Char) (st : AgentStateV05) (c : List Char),
      (recordCommandHistoryV05 ts st c).currentDir = st.currentDir ∧
      (recordCommandHistoryV05 ts st c).processCwd = st.processCwd ∧
      (recordCommandHistoryV05 ts st c).conversationHistory =
        st.conversationHistory ∧
      (recordCommandHistoryV05 ts st c).config.aliases = st.config.aliases ∧
      (recordCommandHistoryV05 ts st c).config.customCommands =
        st.config.customCommands) := by
  refine ⟨?_, ?_, ?_⟩
  · intro isDir runner home st cmd₀ cmd hal hcd hd
    exact executeCommandV04_declined isDir runner home st cmd₀ cmd hal hcd hd
  · intro isDir runner ts st cmd₀ hcd hd
    exact executeCommandV05_declined isDir runner ts st cmd₀ hcd hd
  · intro ts st c
    unfold recordCommandHistoryV05
    by_cases h : c ≠ "pwd".toList && c ≠ "clear".toList &&
        !pyStartsWith c "ls".toList
    · rw [if_pos h]
      exact ⟨rfl, rfl, rfl, rfl, rfl⟩
    · rw [if_neg h]
      exact ⟨rfl, rfl, rfl, rfl, rfl⟩

/-- C4, witness: declining `rm -rf /` in a concrete v04 session. -/
theorem C4_witness :
    executeCommandV04 (fun _ => false) (fun _ _ => (0, "".toList, "".toList))
      false "/home/u".toList
      { currentDir := "/a/b".toList, processCwd := "/a/b".toList,
        dangerousCommands := dangerousCommandsV04, aliases := [],
        conversationHistory := [] } "rm -rf /".toList =
      .ok { output := "Commande annulée par l'utilisateur.".toList,
            state := { currentDir := "/a/b".toList, processCwd := "/a/b".toList,
                       dangerousCommands := dangerousCommandsV04, aliases := [],
                       conversationHistory := [] },
            spawned := [] } := by
  exact C4_amended.1 (fun _ => false) (fun _ _ => (0, "".toList, "".toList))
    "/home/u".toList _ "rm -rf /".toList "rm -rf /".toList
    (by rfl) (by rfl) (by rfl)

/-! ## Claim C10 — the gate sees the fully expanded command -/

/-- C10, confirmed: a quick command is first fully resolved (placeholders
substituted), the result is then alias-expanded inside `execute_command`,
and the dangerous-command classification plus the confirmation gate apply to
that final expanded string — so a quick command or alias whose expansion is
dangerous is still gated: declining spawns nothing. -/
theorem C10_expanded_command_gated :
    ∀ (isDir : List Char → Bool) runner (ts : List Char)
      (st : AgentStateV05) (cmdName : List Char) (args : List (List Char))
      (cmd : List Char),
      executeQuickResolve st.config.customCommands cmdName args =
        .ok (.runCommand cmd) →
      pyStartsWith (pyStrip (aliasExpandV05 st.config.aliases cmd))
        "cd ".toList = false →
      isDangerousV05 (aliasExpandV05 st.config.aliases cmd) = .ok true →
      executeQuickCommandV05 isDir runner false ts st cmdName args =
        .ok { output := "Commande annulée par l'utilisateur.".toList,
              state := recordCommandHistoryV05 ts st
                (aliasExpandV05 st.config.aliases cmd),
              spawned := [] } := by
  intro isDir runner ts st cmdName args cmd hres hcd hd
  unfold executeQuickCommandV05
  rw [hres, show (Except.ok (QuickOutcome.runCommand cmd) :
      Except PyExn QuickOutcome) = pure (QuickOutcome.runCommand cmd) from rfl,
    pure_bind]
  exact executeCommandV05_declined isDir runner ts st cmd hcd hd

/-- C10, witness: a custom quick command `nuke` resolving to `rm -rf /` is
declined; nothing is spawned. -/
theorem C10_witness :
    executeQuickCommandV05 (fun _ => false) (fun _ _ => (0, "".toList, "".toList))
      false "T".toList
      { currentDir := "/a/b".toList, processCwd := "/a/b".toList,
        config := { aliases := [],
                    customCommands := [("nuke".toList, "rm -rf /".toList)],
                    commandHistory := [] },
        persistedConfig := { aliases := [],
                             customCommands := [("nuke".toList, "rm -rf /".toList)],
                             commandHistory := [] },
        conversationHistory := [] }
      "nuke".toList [] =
      .ok { output := "Commande annulée par l'utilisateur.".toList,
            state := recordCommandHistoryV05 "T".toList
              { currentDir := "/a/b".toList, processCwd := "/a/b".toList,
                config := { aliases := [],
                            customCommands := [("nuke".toList, "rm -rf /".toList)],
                            commandHistory := [] },
                persistedConfig := { aliases := [],
                                     customCommands :=
                                       [("nuke".toList, "rm -rf /".toList)],
                                     commandHistory := [] },
                conversationHistory := [] } "rm -rf /".toList,
            spawned := [] } := by
  exact C10_expanded_command_gated (fun _ => false)
    (fun _ _ => (0, "".toList, "".toList)) "T".toList _ "nuke".toList []
    "rm -rf /".toList (by rfl) (by rfl) (by rfl)

/-! ## Fuel stability: the fuel counters never matter above the string
length, so the wrapper functions satisfy the natural unfolding equations. -/

theorem findParamsF_stable : ∀ (fuel fuel' : Nat) (s : List Char),
    s.length ≤ fuel → s.length ≤ fuel' → findParamsF fuel s = findParamsF fuel' s := by
  intro fuel
  induction fuel with
  | zero =>
    intro fuel' s h h'
    have hs : s = [] := List.length_eq_zero.mp (Nat.le_zero.mp h)
    subst hs
    cases fuel' <;> rfl
  | succ fuel ih =>
    intro fuel' s h h'
    cases s with
    | nil => cases fuel' <;> rfl
    | cons c rest =>
      cases fuel' with
      | zero => simp at h'
      | succ f' =>
        simp only [findParamsF]
        simp only [List.length_cons] at h h'
        by_cases hc : c = '{'
        · rw [if_pos hc, if_pos hc]
          cases hsp : splitFirst ['}'] rest with
          | none => exact ih f' rest (by omega) (by omega)
          | some pq =>
            obtain ⟨run, post⟩ := pq
            dsimp only
            have hpost := splitFirst_post_length_lt (by simp) hsp
            by_cases hr : run ≠ []
            · rw [if_pos hr, if_pos hr, ih f' post (by omega) (by omega)]
            · rw [if_neg hr, if_neg hr]
              exact ih f' rest (by omega) (by omega)
        · rw [if_neg hc, if_neg hc]
          exact ih f' rest (by omega) (by omega)

theorem pyFormatF_stable (kwargs : List (List Char × List Char)) :
    ∀ (fuel fuel' : Nat) (s : List Char),
    s.length ≤ fuel → s.length ≤ fuel' →
    pyFormatF kwargs fuel s = pyFormatF kwargs fuel' s := by
  intro fuel
  induction fuel with
  | zero =>
    intro fuel' s h h'
    have hs : s = [] := List.length_eq_zero.mp (Nat.le_zero.mp h)
    subst hs
    cases fuel' <;> rfl
  | succ fuel ih =>
    intro fuel' s h h'
    cases s with
    | nil => cases fuel' <;> rfl
    | cons c rest =>
      cases fuel' with
      | zero => simp at h'
      | succ f' =>
        simp only [pyFormatF]
        simp only [List.length_cons] at h h'
        by_cases hc : c = '{'
        · rw [if_pos hc, if_pos hc]
          by_cases hh : rest.head? = some '{'
          · rw [if_pos hh, if_pos hh,
              ih f' rest.tail (by simp [List.length_tail]; omega)
                (by simp [List.length_tail]; omega)]
          · rw [if_neg hh, if_neg hh]
            cases hsp : splitFirst ['}'] rest with
            | none => rfl
            | some pq =>
              obtain ⟨name, post⟩ := pq
              dsimp only
              have hpost := splitFirst_post_length_lt (by simp) hsp
              by_cases hn : name = []
              · rw [if_pos hn, if_pos hn]
              · rw [if_neg hn, if_neg hn]
                by_cases hlb : pyContains name ['{']
                · rw [if_pos hlb, if_pos hlb]
                · rw [if_neg hlb, if_neg hlb]
                  by_cases hdg : name.all (fun d => d.isDigit)
                  · rw [if_pos hdg, if_pos hdg]
                  · rw [if_neg hdg, if_neg hdg]
                    cases hk : kwargs.find? (fun kv => kv.1 = name) with
                    | none => rfl
                    | some kv =>
                      rw [ih f' post (by omega) (by omega)]
        · rw [if_neg hc, if_neg hc]
          by_cases hc2 : c = '}'
          · rw [if_pos hc2, if_pos hc2]
            by_cases hh : rest.head? = some '}'
            · rw [if_pos hh, if_pos hh,
                ih f' rest.tail (by simp [List.length_tail]; omega)
                  (by simp [List.length_tail]; omega)]
            · rw [if_neg hh, if_neg hh]
          · rw [if_neg hc2, if_neg hc2,
              ih f' rest (by omega) (by omega)]

/-- Fuel stability of `scanCoreF`, assuming the opening token is non-empty
and the tail matcher never lengthens the text (true of all five tags). -/
theorem scanCoreF_stable {α : Type} (openTok : List Char)
    (matchTail : List Char → Option (α × List Char))
    (hopen : openTok ≠ [])
    (hTail : ∀ post a rest, matchTail post = some (a, rest) →
      rest.length ≤ post.length) :
    ∀ (fuel fuel' : Nat) (s : List Char),
    s.length ≤ fuel → s.length ≤ fuel' →
    scanCoreF openTok matchTail fuel s = scanCoreF openTok matchTail fuel' s := by
  have hop1 : 1 ≤ openTok.length := by
    cases openTok with
    | nil => exact absurd rfl hopen
    | cons x xs => simp
  intro fuel
  induction fuel with
  | zero =>
    intro fuel' s h h'
    have hs : s = [] := List.length_eq_zero.mp (Nat.le_zero.mp h)
    subst hs
    cases fuel' with
    | zero => rfl
    | succ f' =>
      simp only [scanCoreF]
      cases hsp : splitFirst openTok [] with
      | none => rfl
      | some pq =>
        obtain ⟨pre, post⟩ := pq
        have := splitFirst_spec openTok [] pre post hsp
        have : ([] : List Char).length = pre.length + openTok.length + post.length := by
          rw [this]; simp [List.length_append]; omega
        simp at this
        omega
  | succ fuel ih =>
    intro fuel' s h h'
    cases fuel' with
    | zero =>
      have hs : s = [] := List.length_eq_zero.mp (Nat.le_zero.mp h')
      subst hs
      simp only [scanCoreF]
      cases hsp : splitFirst openTok [] with
      | none => rfl
      | some pq =>
        obtain ⟨pre, post⟩ := pq
        have h0 := splitFirst_spec openTok [] pre post hsp
        have : ([] : List Char).length = pre.length + openTok.length + post.length := by
          rw [h0]; simp [List.length_append]; omega
        simp at this
        omega
    | succ f' =>
      simp only [scanCoreF]
      cases hsp : splitFirst openTok s with
      | none => rfl
      | some pq =>
        obtain ⟨pre, post⟩ := pq
        dsimp only
        have h0 := splitFirst_spec openTok s pre post hsp
        have hlen : s.length = pre.length + openTok.length + post.length := by
          rw [h0]; simp [List.length_append]; omega
        cases hmt : matchTail post with
        | some ar =>
          obtain ⟨a, rest⟩ := ar
          dsimp only
          have hr := hTail post a rest hmt
          rw [ih f' rest (by omega) (by omega)]
        | none =>
          rw [ih f' (openTok.drop 1 ++ post)
            (by simp [List.length_append, List.length_drop]; omega)
            (by simp [List.length_append, List.length_drop]; omega)]

/-- `scanCore` when the opening token does not occur. -/
theorem scanCore_none {α : Type} {openTok : List Char}
    {matchTail : List Char → Option (α × List Char)} {s : List Char}
    (h : splitFirst openTok s = none) :
    scanCore openTok matchTail s = ([], s) := by
  unfold scanCore
  cases s with
  | nil => rfl
  | cons c rest =>
    simp only [scanCoreF, h]

/-- `scanCore` when the leftmost token occurrence completes into a match:
one payload, then the scan of the text after the match. -/
theorem scanCore_step {α : Type} {openTok : List Char}
    {matchTail : List Char → Option (α × List Char)}
    (hopen : openTok ≠ [])
    (hTail : ∀ post a rest, matchTail post = some (a, rest) →
      rest.length ≤ post.length)
    {s pre post : List Char} {a : α} {rest : List Char}
    (hsp : splitFirst openTok s = some (pre, post))
    (hmt : matchTail post = some (a, rest)) :
    scanCore openTok matchTail s =
      (a :: (scanCore openTok matchTail rest).1,
       pre ++ (scanCore openTok matchTail rest).2) := by
  have hop1 : 1 ≤ openTok.length := by
    cases openTok with
    | nil => exact absurd rfl hopen
    | cons x xs => simp
  have h0 := splitFirst_spec openTok s pre post hsp
  have hlen : s.length = pre.length + openTok.length + post.length := by
    rw [h0]; simp [List.length_append]; omega
  have hr := hTail post a rest hmt
  unfold scanCore
  cases s with
  | nil => simp at hlen; omega
  | cons c s' =>
    simp only [scanCoreF, hsp, hmt]
    rw [scanCoreF_stable openTok matchTail hopen hTail _ rest.length rest
      (by simp only [List.length_cons] at hlen ⊢; omega) (Nat.le_refl _)]

/-! ## Well-formed command templates

To reason about positional substitution in general, a template is rendered
from literal segments and `{name}` fields; `findParams` and `str.format`
are then computed on the rendering. -/

/-- A piece of a command template. -/
inductive TmplItem : Type where
  | lit (t : List Char) : TmplItem
  | field (name : List Char) : TmplItem
deriving DecidableEq, Repr

/-- The template text. -/
def renderTmpl : List TmplItem → List Char
  | [] => []
  | .lit t :: rest => t ++ renderTmpl rest
  | .field n :: rest => '{' :: (n ++ '}' :: renderTmpl rest)

/-- The field names, in order of occurrence. -/
def tmplFields : List TmplItem → List (List Char)
  | [] => []
  | .lit _ :: rest => tmplFields rest
  | .field n :: rest => n :: tmplFields rest

/-- The text `str.format` produces once every field is bound in `kwargs`. -/
def substTmpl (kwargs : List (List Char × List Char)) : List TmplItem → List Char
  | [] => []
  | .lit t :: rest => t ++ substTmpl kwargs rest
  | .field n :: rest => dictFind kwargs n ++ substTmpl kwargs rest

/-- Well-formedness: literals carry no braces; field names are non-empty,
brace-free and not all digits (an all-digit name is a positional index). -/
def WFTmplItem : TmplItem → Prop
  | .lit t => '{' ∉ t ∧ '}' ∉ t
  | .field n => n ≠ [] ∧ '{' ∉ n ∧ '}' ∉ n ∧
      ¬ n.all (fun d => d.isDigit) = true

theorem splitFirst_char_append {c : Char} {x rest : List Char} (hx : c ∉ x) :
    splitFirst [c] (x ++ c :: rest) = some (x, rest) := by
  induction x with
  | nil =>
    rw [List.nil_append]
    rw [splitFirst_of_isPrefixOf (by simp [List.isPrefixOf])]
    rfl
  | cons a x' ih =>
    have hac : ¬ [c].isPrefixOf (a :: (x' ++ c :: rest)) = true := by
      simp only [List.isPrefixOf, Bool.and_eq_true, beq_iff_eq]
      intro hh
      exact hx (by simp [hh.1.symm])
    rw [List.cons_append]
    simp only [splitFirst]
    rw [if_neg hac, ih (fun hmem => hx (List.mem_cons_of_mem a hmem))]
    rfl

theorem splitFirst_char_none {c : Char} {x : List Char} (hx : c ∉ x) :
    splitFirst [c] x = none := by
  induction x with
  | nil => rfl
  | cons a x' ih =>
    have hac : ¬ [c].isPrefixOf (a :: x') = true := by
      simp only [List.isPrefixOf, Bool.and_eq_true, beq_iff_eq]
      intro hh
      exact hx (by simp [hh.1.symm])
    simp only [splitFirst]
    rw [if_neg hac, ih (fun hmem => hx (List.mem_cons_of_mem a hmem))]
    rfl

/-- Scanning skips a brace-free prefix. -/
theorem findParams_append_nolb {t : List Char} (R : List Char) (ht : '{' ∉ t) :
    findParams (t ++ R) = findParams R := by
  unfold findParams
  suffices hgen : ∀ (fuel : Nat) (t : List Char), '{' ∉ t →
      (t ++ R).length ≤ fuel → findParamsF fuel (t ++ R) = findParamsF R.length R by
    exact hgen (t ++ R).length t ht (Nat.le_refl _)
  intro fuel
  induction fuel with
  | zero =>
    intro t ht h
    simp only [List.length_append] at h
    have h1 : t = [] := List.length_eq_zero.mp (by omega)
    have h2 : R = [] := List.length_eq_zero.mp (by omega)
    subst h1; subst h2
    rfl
  | succ fuel ih =>
    intro t ht h
    cases t with
    | nil =>
      rw [List.nil_append]
      exact findParamsF_stable _ _ R (by simpa using h) (Nat.le_refl _)
    | cons c t' =>
      have hc : ¬ c = '{' := fun hh => ht (by simp [hh])
      rw [List.cons_append]
      simp only [findParamsF]
      rw [if_neg hc]
      exact ih t' (fun hmem => ht (List.mem_cons_of_mem c hmem))
        (by simp only [List.length_cons, List.length_append] at h ⊢
            omega)

/-- Scanning a field: the name (up to the first `}`) is captured and the
scan continues after the `}`. -/
theorem findParams_field {n : List Char} (R : List Char)
    (hne : n ≠ []) (hrb : '}' ∉ n) :
    findParams ('{' :: (n ++ '}' :: R)) = n :: findParams R := by
  unfold findParams
  simp only [List.length_cons, findParamsF]
  rw [if_true, splitFirst_char_append hrb]
  dsimp only
  rw [if_pos hne]
  refine congrArg (fun l => n :: l) ?_
  apply findParamsF_stable
  · simp [List.length_append]; omega
  · exact Nat.le_refl _

/-- `str.format` copies a brace-free prefix verbatim. -/
theorem pyFormat_append_lit (kwargs : List (List Char × List Char))
    {t : List Char} (R : List Char) (hlb : '{' ∉ t) (hrb : '}' ∉ t) :
    pyFormat kwargs (t ++ R) = (pyFormat kwargs R).map (fun u => t ++ u) := by
  unfold pyFormat
  suffices hgen : ∀ (fuel : Nat) (t : List Char), '{' ∉ t → '}' ∉ t →
      (t ++ R).length ≤ fuel →
      pyFormatF kwargs fuel (t ++ R) =
        (pyFormatF kwargs R.length R).map (fun u => t ++ u) by
    exact hgen (t ++ R).length t hlb hrb (Nat.le_refl _)
  intro fuel
  induction fuel with
  | zero =>
    intro t hlb hrb h
    simp only [List.length_append] at h
    have h1 : t = [] := List.length_eq_zero.mp (by omega)
    have h2 : R = [] := List.length_eq_zero.mp (by omega)
    subst h1; subst h2
    rfl
  | succ fuel ih =>
    intro t hlb hrb h
    cases t with
    | nil =>
      rw [List.nil_append]
      rw [pyFormatF_stable kwargs _ R.length R (by simpa using h) (Nat.le_refl _)]
      cases pyFormatF kwargs R.length R <;> rfl
    | cons c t' =>
      have hc : ¬ c = '{' := fun hh => hlb (by simp [hh])
      have hc2 : ¬ c = '}' := fun hh => hrb (by simp [hh])
      rw [List.cons_append]
      simp only [pyFormatF]
      rw [if_neg hc, if_neg hc2]
      rw [ih t' (fun hmem => hlb (List.mem_cons_of_mem c hmem))
        (fun hmem => hrb (List.mem_cons_of_mem c hmem))
        (by simp only [List.length_cons, List.length_append] at h ⊢
            omega)]
      cases pyFormatF kwargs R.length R <;> rfl

/-- `str.format` substitutes a bound, well-formed field and continues. -/
theorem pyFormat_field (kwargs : List (List Char × List Char))
    {n : List Char} (R : List Char) (v : List Char)
    (hne : n ≠ []) (hlb : '{' ∉ n) (hrb : '}' ∉ n)
    (hdg : ¬ n.all (fun d => d.isDigit) = true)
    (hfind : kwargs.find? (fun kv => kv.1 = n) = some (n, v)) :
    pyFormat kwargs ('{' :: (n ++ '}' :: R)) =
      (pyFormat kwargs R).map (fun u => v ++ u) := by
  unfold pyFormat
  simp only [List.length_cons, pyFormatF]
  rw [if_true]
  have hhd : ¬ (n ++ '}' :: R).head? = some '{' := by
    cases n with
    | nil => exact absurd rfl hne
    | cons a n' =>
      simp only [List.cons_append, List.head?]
      intro hh
      have : a = '{' := by simpa using hh
      exact hlb (by simp [this])
  rw [if_neg hhd, splitFirst_char_append hrb]
  dsimp only
  rw [if_neg hne]
  have hpc : ¬ pyContains n ['{'] = true := by
    unfold pyContains
    rw [splitFirst_char_none hlb]
    simp
  rw [if_neg hpc, if_neg hdg, hfind]
  dsimp only
  rw [pyFormatF_stable kwargs _ R.length R (by simp [List.length_append]; omega)
    (Nat.le_refl _)]
  cases pyFormatF kwargs R.length R <;> rfl

/-- `re.findall` over a well-formed rendering recovers exactly the field
names, in order. -/
theorem findParams_render : ∀ (items : List TmplItem),
    (∀ i ∈ items, WFTmplItem i) →
    findParams (renderTmpl items) = tmplFields items := by
  intro items
  induction items with
  | nil => intro _; rfl
  | cons i rest ih =>
    intro hwf
    have hrest := fun j hj => hwf j (List.mem_cons_of_mem i hj)
    cases i with
    | lit t =>
      obtain ⟨hlb, hrb⟩ := hwf (.lit t) (List.mem_cons_self ..)
      show findParams (t ++ renderTmpl rest) = tmplFields rest
      rw [findParams_append_nolb _ hlb, ih hrest]
    | field n =>
      obtain ⟨hne, hlb, hrb, hdg⟩ := hwf (.field n) (List.mem_cons_self ..)
      show findParams ('{' :: (n ++ '}' :: renderTmpl rest)) = n :: tmplFields rest
      rw [findParams_field _ hne hrb, ih hrest]

/-- `str.format` over a well-formed rendering whose fields are all bound
substitutes every field with its binding. -/
theorem pyFormat_render (kwargs : List (List Char × List Char)) :
    ∀ (items : List TmplItem), (∀ i ∈ items, WFTmplItem i) →
    (∀ n ∈ tmplFields items, ∃ v,
      kwargs.find? (fun kv => kv.1 = n) = some (n, v)) →
    pyFormat kwargs (renderTmpl items) = .ok (substTmpl kwargs items) := by
  intro items
  induction items with
  | nil => intro _ _; rfl
  | cons i rest ih =>
    intro hwf hb
    have hrest := fun j hj => hwf j (List.mem_cons_of_mem i hj)
    cases i with
    | lit t =>
      obtain ⟨hlb, hrb⟩ := hwf (.lit t) (List.mem_cons_self ..)
      have hbrest : ∀ n ∈ tmplFields rest, ∃ v,
          kwargs.find? (fun kv => kv.1 = n) = some (n, v) := by
        intro n hn
        exact hb n (by simpa [tmplFields] using hn)
      show pyFormat kwargs (t ++ renderTmpl rest) = .ok (t ++ substTmpl kwargs rest)
      rw [pyFormat_append_lit kwargs _ hlb hrb, ih hrest hbrest]
      rfl
    | field n =>
      obtain ⟨hne, hlb, hrb, hdg⟩ := hwf (.field n) (List.mem_cons_self ..)
      obtain ⟨v, hv⟩ := hb n (by simp [tmplFields])
      have hbrest : ∀ m ∈ tmplFields rest, ∃ v,
          kwargs.find? (fun kv => kv.1 = m) = some (m, v) := by
        intro m hm
        exact hb m (by simp [tmplFields, hm])
      show pyFormat kwargs ('{' :: (n ++ '}' :: renderTmpl rest)) =
        .ok (dictFind kwargs n ++ substTmpl kwargs rest)
      rw [pyFormat_field kwargs _ v hne hlb hrb hdg hv, ih hrest hbrest]
      have hdf : dictFind kwargs n = v := by
        unfold dictFind
        rw [hv]
      rw [hdf]
      rfl

/-- Inserting a different key does not change a lookup. -/
theorem dictInsert_find_other (d : List (List Char × List Char))
    (k : List Char) (v : List Char) (k' : List Char) (hne : k' ≠ k) :
    (dictInsert d k v).find? (fun kv => kv.1 = k') =
      d.find? (fun kv => kv.1 = k') := by
  unfold dictInsert
  by_cases h : d.any (fun kv => kv.1 = k)
  · rw [if_pos h]
    clear h
    induction d with
    | nil => rfl
    | cons kv rest ih =>
      by_cases hk : kv.1 = k
      · simp only [List.map_cons, if_pos hk]
        rw [find?_cons_neg _ _ _ (by simp [Ne.symm hne]),
          find?_cons_neg _ _ _ (by simp [hk, Ne.symm hne])]
        exact ih
      · simp only [List.map_cons, if_neg hk]
        by_cases hk' : kv.1 = k'
        · rw [find?_cons_pos _ _ _ (by simp [hk']),
            find?_cons_pos _ _ _ (by simp [hk'])]
        · rw [find?_cons_neg _ _ _ (by simp [hk']),
            find?_cons_neg _ _ _ (by simp [hk'])]
          exact ih
  · rw [if_neg h]
    clear h
    induction d with
    | nil =>
      simp only [List.nil_append]
      rw [find?_cons_neg _ _ _ (by simp [Ne.symm hne])]
    | cons kv rest ih =>
      rw [List.cons_append]
      by_cases hk' : kv.1 = k'
      · rw [find?_cons_pos _ _ _ (by simp [hk']),
          find?_cons_pos _ _ _ (by simp [hk'])]
      · rw [find?_cons_neg _ _ _ (by simp [hk']),
          find?_cons_neg _ _ _ (by simp [hk'])]
        exact ih

/-- After folding `params[name] = args[i]` over a pair list, every key that
occurs among the pairs (or was already present) is bound. -/
theorem foldl_dictInsert_find (pairs : List (List Char × List Char)) :
    ∀ (d : List (List Char × List Char)) (n : List Char),
    (n ∈ pairs.map Prod.fst ∨ ∃ v, d.find? (fun kv => kv.1 = n) = some (n, v)) →
    ∃ v, (pairs.foldl (fun d nv => dictInsert d nv.1 nv.2) d).find?
      (fun kv => kv.1 = n) = some (n, v) := by
  induction pairs with
  | nil =>
    intro d n h
    rcases h with h | h
    · simp at h
    · simpa [List.foldl_nil] using h
  | cons p rest ih =>
    intro d n h
    rw [List.foldl_cons]
    apply ih
    by_cases hnp : n = p.1
    · right
      refine ⟨p.2, ?_⟩
      have := dictInsert_find d p.1 p.2
      rw [hnp]
      exact this
    · rcases h with hmem | ⟨v, hv⟩
      · simp only [List.map_cons, List.mem_cons] at hmem
        rcases hmem with h1 | h2
        · exact absurd h1 hnp
        · left; exact h2
      · right
        exact ⟨v, by rw [dictInsert_find_other d p.1 p.2 n hnp]; exact hv⟩

/-- Every parameter name is bound by the positional `params` dictionary when
enough arguments are supplied. -/
theorem buildParams_find (names args : List (List Char)) (n : List Char)
    (hn : n ∈ names) (hlen : names.length ≤ args.length) :
    ∃ v, (buildParams names args).find? (fun kv => kv.1 = n) = some (n, v) := by
  apply foldl_dictInsert_find
  left
  rw [List.map_fst_zip names args hlen]
  exact hn

/-! ## Claim C8 — quick-command resolution -/

/-- C8, counterexample: the claim says that with enough arguments the
placeholders are substituted positionally and a command is produced; for the
built-in `find-large-files` (template
`find {path} -type f -size +{size}M -exec ls -lh {} \;`, two placeholders,
two arguments supplied) `str.format` instead raises `IndexError` on the bare
`{}`, which `execute_quick_command` does not catch (only `KeyError` is). -/
theorem C8_counterexample :
    executeQuickResolve [] "find-large-files".toList
      ["/tmp".toList, "100".toList] = .error .formatIndexError ∧
    findParams (dictFind quickCommands "find-large-files".toList) =
      ["path".toList, "size".toList] ∧
    (["/tmp".toList, "100".toList] : List (List Char)).length = 2 := by
  exact ⟨by rfl, by rfl, by rfl⟩

/-- C8, amended: (1) a template without both braces is returned verbatim,
arguments ignored; (2) `resolve("service-status", ["nginx"])` yields
`systemctl status nginx`, and `resolve("service-status", [])` fails with a
message naming `service`; (3) in general the too-few-arguments message
names all placeholders of the template, not only the missing ones; (4) for
a template made of brace-free literals and well-formed named fields, enough
arguments yield the positional substitution, every occurrence of a repeated
name receiving the same (rightmost) binding; templates with a bare `{}`
(such as the built-in `find-large-files`) instead raise `IndexError`, per
the counterexample. -/
theorem C8_amended :
    (∀ (custom : List (List Char × List Char)) (cmdName : List Char)
      (args : List (List Char)),
      (!dictHas quickCommands cmdName && !dictHas custom cmdName) = false →
      (pyContains (if dictHas custom cmdName then dictFind custom cmdName
        else dictFind quickCommands cmdName) ['{'] &&
       pyContains (if dictHas custom cmdName then dictFind custom cmdName
        else dictFind quickCommands cmdName) ['}']) = false →
      executeQuickResolve custom cmdName args =
        .ok (.runCommand (if dictHas custom cmdName then dictFind custom cmdName
          else dictFind quickCommands cmdName))) ∧
    executeQuickResolve [] "service-status".toList ["nginx".toList] =
      .ok (.runCommand "systemctl status nginx".toList) ∧
    executeQuickResolve [] "service-status".toList [] =
      .ok (.message ("Erreur: La commande 'service-status' nécessite les " ++
        "paramètres suivants: service").toList) ∧
    (∀ (custom : List (List Char × List Char)) (cmdName : List Char)
      (args : List (List Char)),
      (!dictHas quickCommands cmdName && !dictHas custom cmdName) = false →
      (pyContains (if dictHas custom cmdName then dictFind custom cmdName
        else dictFind quickCommands cmdName) ['{'] &&
       pyContains (if dictHas custom cmdName then dictFind custom cmdName
        else dictFind quickCommands cmdName) ['}']) = true →
      args.length < (findParams (if dictHas custom cmdName then
        dictFind custom cmdName else dictFind quickCommands cmdName)).length →
      executeQuickResolve custom cmdName args =
        .ok (.message ("Erreur: La commande '".toList ++ cmdName ++
          "' nécessite les paramètres suivants: ".toList ++
          joinCommaSpace (findParams (if dictHas custom cmdName then
            dictFind custom cmdName else dictFind quickCommands cmdName))))) ∧
    (∀ (custom : List (List Char × List Char)) (cmdName : List Char)
      (args : List (List Char)) (items : List TmplItem),
      (!dictHas quickCommands cmdName && !dictHas custom cmdName) = false →
      (if dictHas custom cmdName then dictFind custom cmdName
        else dictFind quickCommands cmdName) = renderTmpl items →
      (∀ i ∈ items, WFTmplItem i) →
      (pyContains (renderTmpl items) ['{'] &&
       pyContains (renderTmpl items) ['}']) = true →
      (tmplFields items).length ≤ args.length →
      executeQuickResolve custom cmdName args =
        .ok (.runCommand
          (substTmpl (buildParams (tmplFields items) args) items))) := by
  refine ⟨?_, by rfl, by rfl, ?_, ?_⟩
  · intro custom cmdName args hmem hbraces
    unfold executeQuickResolve
    rw [hmem]
    simp only [Bool.false_eq_true, if_false]
    rw [hbraces]
    simp
  · intro custom cmdName args hmem hbraces hlt
    unfold executeQuickResolve
    rw [hmem]
    simp only [Bool.false_eq_true, if_false]
    rw [hbraces]
    simp only [if_true]
    rw [if_pos hlt]
  · intro custom cmdName args items hmem ht hwf hbraces hlen
    unfold executeQuickResolve
    rw [hmem]
    simp only [Bool.false_eq_true, if_false]
    rw [ht, hbraces]
    simp only [if_true]
    rw [findParams_render items hwf]
    rw [if_neg (by omega)]
    rw [pyFormat_render (buildParams (tmplFields items) args) items hwf
      (fun n hn => buildParams_find (tmplFields items) args n hn hlen)]

/-- C8, witness: the quantified amended parts at concrete inputs — the
argument-free built-in `docker-ps` is returned verbatim even with stray
arguments; `ping-host` with no argument reports its placeholder; a custom
template `{h} then {h}` with two arguments binds both occurrences of `h` to
the second argument. -/
theorem C8_witness :
    executeQuickResolve [] "docker-ps".toList ["junk".toList] =
      .ok (.runCommand "docker ps".toList) ∧
    executeQuickResolve [] "ping-host".toList [] =
      .ok (.message ("Erreur: La commande 'ping-host' nécessite les " ++
        "paramètres suivants: host").toList) ∧
    executeQuickResolve [("twice".toList, "{h} then {h}".toList)]
      "twice".toList ["a".toList, "b".toList] =
      .ok (.runCommand "b then b".toList) := by
  refine ⟨?_, ?_, ?_⟩
  · exact C8_amended.1 [] "docker-ps".toList ["junk".toList] (by rfl) (by rfl)
  · exact C8_amended.2.2.2.1 [] "ping-host".toList [] (by rfl) (by rfl)
      (by decide)
  · have h := C8_amended.2.2.2.2 [("twice".toList, "{h} then {h}".toList)]
      "twice".toList ["a".toList, "b".toList]
      [TmplItem.field "h".toList, TmplItem.lit " then ".toList,
       TmplItem.field "h".toList]
      (by rfl) (by rfl)
      (by
        intro i hi
        fin_cases hi
        · exact ⟨by decide, by decide, by decide, by decide⟩
        · exact ⟨by decide, by decide⟩
        · exact ⟨by decide, by decide, by decide, by decide⟩)
      (by rfl) (by decide)
    rw [h]
    rfl

/-! ## Claim C7 — reparsing the cleaned prose -/

/-- A chunk in which no occurrence of `tok` starts has no `splitFirst` hit. -/
theorem splitFirst_none_of_safeChunk {tok : List Char} (htok : tok ≠ []) :
    ∀ {x : List Char}, SafeChunk tok x → splitFirst tok x = none := by
  intro x
  induction x with
  | nil =>
    intro _
    simp [splitFirst, htok]
  | cons c rest ih =>
    intro h
    unfold splitFirst
    by_cases hp : tok.isPrefixOf (c :: rest)
    · exfalso
      refine h [] (c :: rest) [] rfl (by simp) ?_
      rw [List.append_nil]
      exact List.isPrefixOf_iff_prefix.mp hp
    · rw [if_neg hp, ih h.tail]
      rfl

/-- C7, counterexample: for the response `[EXEC[EXEC] x [/EXEC]] y [/EXEC]`
the parser removes the inner span `[EXEC] x [/EXEC]`, and the prose it
returns, `[EXEC] y [/EXEC]`, reparses to one further directive. -/
theorem C7_counterexample :
    cleanProse "[EXEC[EXEC] x [/EXEC]] y [/EXEC]".toList =
      "[EXEC] y [/EXEC]".toList ∧
    responseDirectives (cleanProse "[EXEC[EXEC] x [/EXEC]] y [/EXEC]".toList) =
      [Directive.exec "y".toList] := by
  exact ⟨by rfl, by rfl⟩

/-- C7, amended: a text containing no `[` yields zero directives and is
returned (only stripped) as prose; consequently the cleaned prose reparses
to zero directives whenever it contains no `[` — but not in general, per
the counterexample. -/
theorem C7_amended :
    (∀ t : List Char, '[' ∉ t →
      responseDirectives t = [] ∧ cleanProse t = pyStrip t) ∧
    (∀ t : List Char, '[' ∉ cleanProse t →
      responseDirectives (cleanProse t) = []) := by
  have key : ∀ (t : List Char), '[' ∉ t →
      ∀ {α : Type} (openTok : List Char)
        (matchTail : List Char → Option (α × List Char)),
        openTok.head? = some '[' →
        scanCore openTok matchTail t = ([], t) := by
    intro t ht α openTok matchTail hhead
    refine scanCore_none (splitFirst_none_of_safeChunk ?_ ?_)
    · intro hnil
      rw [hnil] at hhead
      exact Option.noConfusion hhead
    · exact safeChunk_noBracket hhead ht
  have main : ∀ t : List Char, '[' ∉ t →
      responseDirectives t = [] ∧ cleanProse t = pyStrip t := by
    intro t ht
    have hE : scanExec t = ([], t) := key t ht _ _ (by decide)
    have hS : scanScript t = ([], t) := key t ht _ _ (by decide)
    have hT : scanTemplate t = ([], t) := key t ht _ _ (by decide)
    have hQ : scanQuickCmd t = ([], t) := key t ht _ _ (by decide)
    have hD : scanDevops t = ([], t) := key t ht _ _ (by decide)
    constructor
    · unfold responseDirectives
      rw [hE, hS, hT, hQ, hD]
      rfl
    · unfold cleanProse
      rw [hE, hS, hT, hQ, hD]
  exact ⟨main, fun t ht => (main (cleanProse t) ht).1⟩

/-- C7, witness: the amended parts at concrete inputs — a bracket-free text
parses to nothing, and the prose cleaned from a well-formed single-EXEC
response reparses to nothing. -/
theorem C7_witness :
    (('[' ∉ "hello world".toList) ∧
      responseDirectives "hello world".toList = [] ∧
      cleanProse "hello world".toList = pyStrip "hello world".toList) ∧
    (('[' ∉ cleanProse "a [EXEC] ls [/EXEC] b".toList) ∧
      responseDirectives (cleanProse "a [EXEC] ls [/EXEC] b".toList) = []) := by
  constructor
  · exact ⟨by decide, C7_amended.1 "hello world".toList (by decide)⟩
  · exact ⟨by decide, C7_amended.2 "a [EXEC] ls [/EXEC] b".toList (by decide)⟩

/-! ## Well-formed model responses

To reason about the parser on every response built from prose and
directive tags, a response is rendered from a list of items, one per tag
span or prose stretch, and the five scans are computed on the rendering. -/

/-- A piece of a model response: prose or one directive tag span. -/
inductive RItem : Type where
  | prose (t : List Char) : RItem
  | exec (body : List Char) : RItem
  | script (kind fname body : List Char) : RItem
  | template (kind fname : List Char) : RItem
  | quickcmd (name : List Char) (argText : Option (List Char)) : RItem
  | devops (name : List Char) (argText : Option (List Char)) : RItem
deriving DecidableEq, Repr

/-- The text of one item, written exactly as the tag grammar prints it
(single spaces inside the tags; the optional argument text present only
when supplied). -/
def renderItem : RItem → List Char
  | .prose t => t
  | .exec body => "[EXEC]".toList ++ body ++ "[/EXEC]".toList
  | .script kind fname body =>
      "[SCRIPT".toList ++ ' ' :: (kind ++ ' ' :: (fname ++ ']' ::
        (body ++ "[/SCRIPT]".toList)))
  | .template kind fname =>
      "[TEMPLATE".toList ++ ' ' :: (kind ++ ' ' :: (fname ++ [']']))
  | .quickcmd name none => "[QUICKCMD".toList ++ ' ' :: (name ++ [']'])
  | .quickcmd name (some a) =>
      "[QUICKCMD".toList ++ ' ' :: (name ++ ' ' :: (a ++ [']']))
  | .devops name none => "[DEVOPS".toList ++ ' ' :: (name ++ [']'])
  | .devops name (some a) =>
      "[DEVOPS".toList ++ ' ' :: (name ++ ' ' :: (a ++ [']']))

/-- A whole response: the items in document order, concatenated. -/
def render : List RItem → List Char
  | [] => []
  | i :: rest => renderItem i ++ render rest

/-- Kind tests for the items. -/
def isProseItem : RItem → Bool
  | .prose _ => true
  | _ => false

def isExecItem : RItem → Bool
  | .exec _ => true
  | _ => false

def isScriptItem : RItem → Bool
  | .script _ _ _ => true
  | _ => false

def isTemplateItem : RItem → Bool
  | .template _ _ => true
  | _ => false

def isQuickItem : RItem → Bool
  | .quickcmd _ _ => true
  | _ => false

def isDevopsItem : RItem → Bool
  | .devops _ _ => true
  | _ => false

/-- The payload each scanner extracts from an item of its kind. -/
def execPayload? : RItem → Option (List Char)
  | .exec b => some b
  | _ => none

def scriptPayload? : RItem → Option (List Char × List Char × List Char)
  | .script k f b => some (k, f, b)
  | _ => none

def templatePayload? : RItem → Option (List Char × List Char)
  | .template k f => some (k, f)
  | _ => none

def quickPayload? : RItem → Option (List Char × Option (List Char))
  | .quickcmd n a => some (n, a)
  | _ => none

def devopsPayload? : RItem → Option (List Char × Option (List Char))
  | .devops n a => some (n, a)
  | _ => none

/-- Well-formedness of an item: prose and bodies carry no `[` (so no tag
opens inside them), kinds and names are non-empty words, filenames and
argument texts are non-empty, bracket-free and do not start with
whitespace. -/
def WFRItem : RItem → Prop
  | .prose t => '[' ∉ t
  | .exec body => '[' ∉ body
  | .script kind fname body =>
      kind ≠ [] ∧ (∀ c ∈ kind, isPyWord c = true) ∧
      fname ≠ [] ∧ fname.takeWhile isPySpace = [] ∧
      '[' ∉ fname ∧ ']' ∉ fname ∧ '[' ∉ body
  | .template kind fname =>
      kind ≠ [] ∧ (∀ c ∈ kind, isPyWord c = true) ∧
      fname ≠ [] ∧ fname.takeWhile isPySpace = [] ∧
      '[' ∉ fname ∧ ']' ∉ fname
  | .quickcmd name arg =>
      name ≠ [] ∧ (∀ c ∈ name, isPyWord c = true) ∧
      (match arg with
       | none => True
       | some a => a ≠ [] ∧ a.takeWhile isPySpace = [] ∧
           '[' ∉ a ∧ ']' ∉ a)
  | .devops name arg =>
      name ≠ [] ∧ (∀ c ∈ name, isPyWord c = true) ∧
      (match arg with
       | none => True
       | some a => a ≠ [] ∧ a.takeWhile isPySpace = [] ∧
           '[' ∉ a ∧ ']' ∉ a)

/-- A word character is never whitespace. -/
theorem word_not_space {c : Char} (h : isPyWord c = true) : isPySpace c = false := by
  rcases Bool.eq_false_or_eq_true (isPySpace c) with ht | hf
  · exfalso
    unfold isPySpace at ht
    simp only [Bool.or_eq_true, decide_eq_true_eq] at ht
    rcases ht with ((((h1 | h2) | h3) | h4) | h5) | h6 <;>
      subst_vars <;> exact absurd h (by decide)
  · exact hf

theorem not_mem_cons_char {c d : Char} {l : List Char} (hcd : c ≠ d)
    (hl : c ∉ l) : c ∉ d :: l := by
  intro h
  rcases List.mem_cons.mp h with h | h
  · exact hcd h
  · exact hl h

theorem not_mem_append_char {c : Char} {l1 l2 : List Char} (h1 : c ∉ l1)
    (h2 : c ∉ l2) : c ∉ l1 ++ l2 := by
  intro h
  rcases List.mem_append.mp h with h | h
  · exact h1 h
  · exact h2 h

/-- `takeWhile` over an all-true block followed by a failing head. -/
theorem takeWhile_append_eq {p : Char → Bool} :
    ∀ {w t : List Char}, (∀ c ∈ w, p c = true) → t.takeWhile p = [] →
    (w ++ t).takeWhile p = w := by
  intro w
  induction w with
  | nil =>
    intro t _ ht
    simpa using ht
  | cons c w' ih =>
    intro t hw ht
    rw [List.cons_append, List.takeWhile_cons,
      if_pos (hw c (List.mem_cons_self ..)), ih (fun d hd => hw d (List.mem_cons_of_mem c hd)) ht]

/-- `dropWhile` over an all-true block followed by a failing head. -/
theorem dropWhile_append_eq {p : Char → Bool} :
    ∀ {w t : List Char}, (∀ c ∈ w, p c = true) → t.takeWhile p = [] →
    (w ++ t).dropWhile p = t := by
  intro w
  induction w with
  | nil =>
    intro t _ ht
    rw [List.nil_append]
    cases t with
    | nil => rfl
    | cons c r =>
      rw [List.takeWhile_cons] at ht
      by_cases hc : p c = true
      · rw [if_pos hc] at ht
        exact absurd ht (by simp)
      · rw [List.dropWhile_cons, if_neg hc]
  | cons c w' ih =>
    intro t hw ht
    rw [List.cons_append, List.dropWhile_cons,
      if_pos (hw c (List.mem_cons_self ..))]
    exact ih (fun d hd => hw d (List.mem_cons_of_mem c hd)) ht

/-- A lone bracketed span with a two-character discriminator mismatch is a
safe chunk. -/
theorem safeChunk_single {tok tr d : List Char} (htok : tok = '[' :: tr)
    (hd2 : 2 ≤ d.length) (hdbr : '[' ∉ d)
    (hmm : (tr.take 2).isPrefixOf (d.take 2) = false) :
    SafeChunk tok ('[' :: d) := by
  have h := safeChunk_cons_discr htok hd2 hdbr hmm (safeChunk_nil tok)
  rw [List.append_nil] at h
  exact h

/-- Two bracketed spans in sequence (an opening tag with its closing tag),
both mismatching the scanned token, form a safe chunk. -/
theorem safeChunk_double {tok tr d1 d2 : List Char} (htok : tok = '[' :: tr)
    (h12 : 2 ≤ d1.length) (h1br : '[' ∉ d1)
    (hmm1 : (tr.take 2).isPrefixOf (d1.take 2) = false)
    (h22 : 2 ≤ d2.length) (h2br : '[' ∉ d2)
    (hmm2 : (tr.take 2).isPrefixOf (d2.take 2) = false) :
    SafeChunk tok (('[' :: d1) ++ ('[' :: d2)) := by
  have hin : SafeChunk tok ('[' :: d2) := safeChunk_single htok h22 h2br hmm2
  have h := safeChunk_cons_discr htok h12 h1br hmm1 hin
  rw [List.cons_append]
  exact h

/-- Characters of a stripped string come from the string. -/
theorem mem_pyStrip {c : Char} {l : List Char} (h : c ∈ pyStrip l) : c ∈ l := by
  unfold pyStrip pyRStrip pyLStrip at h
  have h1 := (List.dropWhile_sublist (l := (l.dropWhile isPySpace).reverse)
    (p := isPySpace)).subset (List.mem_reverse.mp h)
  exact (List.dropWhile_sublist (l := l) (p := isPySpace)).subset
    (List.mem_reverse.mp h1)

/-- Characters of a rendering come from one of the items. -/
theorem mem_render {c : Char} :
    ∀ {items : List RItem}, c ∈ render items → ∃ i ∈ items, c ∈ renderItem i := by
  intro items
  induction items with
  | nil => intro h; exact absurd h (by simp [render])
  | cons i rest ih =>
    intro h
    rcases List.mem_append.mp h with h | h
    · exact ⟨i, List.mem_cons_self .., h⟩
    · obtain ⟨j, hj, hc⟩ := ih h
      exact ⟨j, List.mem_cons_of_mem i hj, hc⟩

/-- The open-tag tail parses a single-space rendering of `kind` and `fname`
back to exactly those groups. -/
theorem openTagTail_front {kind fname tail2 : List Char}
    (hk : kind ≠ []) (hkw : ∀ c ∈ kind, isPyWord c = true)
    (hf : fname ≠ []) (hfs : fname.takeWhile isPySpace = [])
    (hfr : ']' ∉ fname) :
    openTagTail (' ' :: (kind ++ ' ' :: (fname ++ ']' :: tail2))) =
      some ((kind, fname), tail2) := by
  obtain ⟨k, ks, rfl⟩ : ∃ k ks, kind = k :: ks := by
    cases kind with
    | nil => exact absurd rfl hk
    | cons k ks => exact ⟨k, ks, rfl⟩
  have hkword := hkw k (List.mem_cons_self ..)
  have hksp := word_not_space hkword
  have htw : ((k :: ks) ++ ' ' :: (fname ++ ']' :: tail2)).takeWhile isPySpace
      = [] := by
    rw [List.cons_append, List.takeWhile_cons, if_neg (by simp [hksp])]
  have hcond1 : (' ' :: ((k :: ks) ++ ' ' :: (fname ++ ']' :: tail2))).takeWhile
      isPySpace = ' ' :: [] := by
    rw [List.takeWhile_cons, if_pos (by decide), htw]
  have hdrop : (' ' :: ((k :: ks) ++ ' ' :: (fname ++ ']' :: tail2))).dropWhile
      isPySpace = (k :: ks) ++ ' ' :: (fname ++ ']' :: tail2) := by
    rw [List.dropWhile_cons, if_pos (by decide), List.cons_append,
      List.dropWhile_cons, if_neg (by simp [hksp]), ← List.cons_append]
  have htail_nw : (' ' :: (fname ++ ']' :: tail2)).takeWhile isPyWord = [] := by
    rw [List.takeWhile_cons, if_neg (by decide)]
  have hword : tagWord (' ' :: ((k :: ks) ++ ' ' :: (fname ++ ']' :: tail2)))
      = k :: ks := by
    unfold tagWord
    rw [hdrop]
    exact takeWhile_append_eq hkw htail_nw
  have hrest : tagWordRest (' ' :: ((k :: ks) ++ ' ' :: (fname ++ ']' :: tail2)))
      = ' ' :: (fname ++ ']' :: tail2) := by
    unfold tagWordRest
    rw [hdrop]
    exact dropWhile_append_eq hkw htail_nw
  have hsp : splitFirst [']'] (' ' :: (fname ++ ']' :: tail2)) =
      some (' ' :: fname, tail2) := by
    have := @splitFirst_char_append ']' (' ' :: fname) tail2
      (not_mem_cons_char (by decide) hfr)
    rw [List.cons_append] at this
    exact this
  have hws : wsRunLen (' ' :: (fname ++ ']' :: tail2)) = 1 := by
    obtain ⟨f, fs, rfl⟩ : ∃ f fs, fname = f :: fs := by
      cases fname with
      | nil => exact absurd rfl hf
      | cons f fs => exact ⟨f, fs, rfl⟩
    have hfhd : isPySpace f = false := by
      rw [List.takeWhile_cons] at hfs
      by_cases hc : isPySpace f = true
      · rw [if_pos hc] at hfs
        exact absurd hfs (by simp)
      · exact Bool.eq_false_iff.mpr hc
    unfold wsRunLen
    rw [List.takeWhile_cons, if_pos (by decide), List.cons_append,
      List.takeWhile_cons, if_neg (by simp [hfhd])]
    rfl
  have hflen : 1 ≤ fname.length := by
    cases fname with
    | nil => exact absurd rfl hf
    | cons f fs => simp
  unfold openTagTail
  rw [if_neg (by rw [hcond1]; simp), hword, if_neg hk, hrest, hsp]
  dsimp only
  rw [hws, if_pos ⟨by omega, by simp only [List.length_cons]; omega⟩]
  have hmin : min 1 ((' ' :: fname).length - 1) = 1 := by
    simp only [List.length_cons]
    omega
  rw [hmin]
  rfl

/-- The quick-tag tail on a rendering with no argument text. -/
theorem quickTagTail_front_none {name tail : List Char}
    (hn : name ≠ []) (hnw : ∀ c ∈ name, isPyWord c = true) :
    quickTagTail (' ' :: (name ++ ']' :: tail)) = some ((name, none), tail) := by
  obtain ⟨k, ks, rfl⟩ : ∃ k ks, name = k :: ks := by
    cases name with
    | nil => exact absurd rfl hn
    | cons k ks => exact ⟨k, ks, rfl⟩
  have hksp := word_not_space (hnw k (List.mem_cons_self ..))
  have hcond1 : (' ' :: ((k :: ks) ++ ']' :: tail)).takeWhile isPySpace
      = ' ' :: [] := by
    rw [List.takeWhile_cons, if_pos (by decide), List.cons_append,
      List.takeWhile_cons, if_neg (by simp [hksp])]
  have hdrop : (' ' :: ((k :: ks) ++ ']' :: tail)).dropWhile isPySpace
      = (k :: ks) ++ ']' :: tail := by
    rw [List.dropWhile_cons, if_pos (by decide), List.cons_append,
      List.dropWhile_cons, if_neg (by simp [hksp]), ← List.cons_append]
  have htail_nw : (']' :: tail).takeWhile isPyWord = [] := by
    rw [List.takeWhile_cons, if_neg (by decide)]
  have hword : tagWord (' ' :: ((k :: ks) ++ ']' :: tail)) = k :: ks := by
    unfold tagWord
    rw [hdrop]
    exact takeWhile_append_eq hnw htail_nw
  have hrest : tagWordRest (' ' :: ((k :: ks) ++ ']' :: tail)) = ']' :: tail := by
    unfold tagWordRest
    rw [hdrop]
    exact dropWhile_append_eq hnw htail_nw
  have hsp : splitFirst [']'] (']' :: tail) = some ([], tail) := by
    rw [splitFirst_of_isPrefixOf (by simp [List.isPrefixOf])]
    rfl
  unfold quickTagTail
  rw [if_neg (by rw [hcond1]; simp), hword, if_neg hn, hrest, hsp]
  dsimp only
  rw [if_neg (by unfold wsRunLen; rw [List.takeWhile_cons, if_neg (by decide)]; simp),
    if_pos rfl]

/-- The quick-tag tail on a rendering with an argument text. -/
theorem quickTagTail_front_some {name a tail : List Char}
    (hn : name ≠ []) (hnw : ∀ c ∈ name, isPyWord c = true)
    (ha : a ≠ []) (has : a.takeWhile isPySpace = []) (har : ']' ∉ a) :
    quickTagTail (' ' :: (name ++ ' ' :: (a ++ ']' :: tail))) =
      some ((name, some a), tail) := by
  obtain ⟨k, ks, rfl⟩ : ∃ k ks, name = k :: ks := by
    cases name with
    | nil => exact absurd rfl hn
    | cons k ks => exact ⟨k, ks, rfl⟩
  have hksp := word_not_space (hnw k (List.mem_cons_self ..))
  have hcond1 : (' ' :: ((k :: ks) ++ ' ' :: (a ++ ']' :: tail))).takeWhile
      isPySpace = ' ' :: [] := by
    rw [List.takeWhile_cons, if_pos (by decide), List.cons_append,
      List.takeWhile_cons, if_neg (by simp [hksp])]
  have hdrop : (' ' :: ((k :: ks) ++ ' ' :: (a ++ ']' :: tail))).dropWhile
      isPySpace = (k :: ks) ++ ' ' :: (a ++ ']' :: tail) := by
    rw [List.dropWhile_cons, if_pos (by decide), List.cons_append,
      List.dropWhile_cons, if_neg (by simp [hksp]), ← List.cons_append]
  have htail_nw : (' ' :: (a ++ ']' :: tail)).takeWhile isPyWord = [] := by
    rw [List.takeWhile_cons, if_neg (by decide)]
  have hword : tagWord (' ' :: ((k :: ks) ++ ' ' :: (a ++ ']' :: tail)))
      = k :: ks := by
    unfold tagWord
    rw [hdrop]
    exact takeWhile_append_eq hnw htail_nw
  have hrest : tagWordRest (' ' :: ((k :: ks) ++ ' ' :: (a ++ ']' :: tail)))
      = ' ' :: (a ++ ']' :: tail) := by
    unfold tagWordRest
    rw [hdrop]
    exact dropWhile_append_eq hnw htail_nw
  have hsp : splitFirst [']'] (' ' :: (a ++ ']' :: tail)) =
      some (' ' :: a, tail) := by
    have := @splitFirst_char_append ']' (' ' :: a) tail
      (not_mem_cons_char (by decide) har)
    rw [List.cons_append] at this
    exact this
  have hws : wsRunLen (' ' :: (a ++ ']' :: tail)) = 1 := by
    obtain ⟨f, fs, rfl⟩ : ∃ f fs, a = f :: fs := by
      cases a with
      | nil => exact absurd rfl ha
      | cons f fs => exact ⟨f, fs, rfl⟩
    have hfhd : isPySpace f = false := by
      rw [List.takeWhile_cons] at has
      by_cases hc : isPySpace f = true
      · rw [if_pos hc] at has
        exact absurd has (by simp)
      · exact Bool.eq_false_iff.mpr hc
    unfold wsRunLen
    rw [List.takeWhile_cons, if_pos (by decide), List.cons_append,
      List.takeWhile_cons, if_neg (by simp [hfhd])]
    rfl
  have halen : 1 ≤ a.length := by
    cases a with
    | nil => exact absurd rfl ha
    | cons f fs => simp
  unfold quickTagTail
  rw [if_neg (by rw [hcond1]; simp), hword, if_neg hn, hrest, hsp]
  dsimp only
  rw [hws, if_pos ⟨by omega, by simp only [List.length_cons]; omega⟩]
  have hmin : min 1 ((' ' :: a).length - 1) = 1 := by
    simp only [List.length_cons]
    omega
  rw [hmin]
  rfl

/-- First occurrence of a closing tag after a bracket-free body. -/
theorem splitFirst_body_close {tok body tail : List Char}
    (htok : tok.head? = some '[') (hb : '[' ∉ body) :
    splitFirst tok (body ++ (tok ++ tail)) = some (body, tail) := by
  rw [splitFirst_append_right body _ (safeChunk_noBracket htok hb),
    splitFirst_of_isPrefixOf (List.isPrefixOf_iff_prefix.mpr ⟨tail, rfl⟩),
    List.drop_left]
  simp

/-- The SCRIPT tail on a single-space rendering. -/
theorem scriptTail_front {kind fname body tail : List Char}
    (hk : kind ≠ []) (hkw : ∀ c ∈ kind, isPyWord c = true)
    (hf : fname ≠ []) (hfs : fname.takeWhile isPySpace = [])
    (hfr : ']' ∉ fname) (hbb : '[' ∉ body) :
    scriptTail (' ' :: (kind ++ ' ' :: (fname ++ ']' ::
      (body ++ ("[/SCRIPT]".toList ++ tail))))) =
      some ((kind, fname, body), tail) := by
  unfold scriptTail
  rw [openTagTail_front hk hkw hf hfs hfr]
  dsimp only
  rw [splitFirst_body_close (by decide) hbb]

/-- `scanCore` when the leftmost token occurrence fails to complete into a
match: the scan resumes one character after the token, keeping that
character in the residual text. -/
theorem scanCore_pushback {α : Type} {openTok : List Char}
    {matchTail : List Char → Option (α × List Char)}
    (hopen : openTok ≠ [])
    (hTail : ∀ post a rest, matchTail post = some (a, rest) →
      rest.length ≤ post.length)
    {s pre post : List Char}
    (hsp : splitFirst openTok s = some (pre, post))
    (hmt : matchTail post = none) :
    scanCore openTok matchTail s =
      ((scanCore openTok matchTail (openTok.drop 1 ++ post)).1,
       pre ++ openTok.take 1 ++
         (scanCore openTok matchTail (openTok.drop 1 ++ post)).2) := by
  have hop1 : 1 ≤ openTok.length := by
    cases openTok with
    | nil => exact absurd rfl hopen
    | cons x xs => simp
  have h0 := splitFirst_spec openTok s pre post hsp
  have hlen : s.length = pre.length + openTok.length + post.length := by
    rw [h0]; simp [List.length_append]; omega
  unfold scanCore
  cases s with
  | nil => simp at hlen; omega
  | cons c s' =>
    simp only [scanCoreF, hsp, hmt]
    rw [scanCoreF_stable openTok matchTail hopen hTail _
      (openTok.drop 1 ++ post).length (openTok.drop 1 ++ post)
      (by simp only [List.length_cons] at hlen ⊢
          simp [List.length_append, List.length_drop]; omega)
      (Nat.le_refl _)]

/-- Scanning after a safe chunk: the matches are those of the remainder and
the chunk passes through to the residual text unchanged. -/
theorem scanCore_prepend {α : Type} {openTok : List Char}
    {matchTail : List Char → Option (α × List Char)}
    (hopen : openTok ≠ [])
    (hTail : ∀ post a rest, matchTail post = some (a, rest) →
      rest.length ≤ post.length)
    (x s : List Char) (hx : SafeChunk openTok x) :
    scanCore openTok matchTail (x ++ s) =
      ((scanCore openTok matchTail s).1,
       x ++ (scanCore openTok matchTail s).2) := by
  cases hsp : splitFirst openTok s with
  | none =>
    have h1 : splitFirst openTok (x ++ s) = none := by
      rw [splitFirst_append_right x s hx, hsp]
      rfl
    rw [scanCore_none h1, scanCore_none hsp]
  | some pq =>
    obtain ⟨pre, post⟩ := pq
    have h1 : splitFirst openTok (x ++ s) = some (x ++ pre, post) := by
      rw [splitFirst_append_right x s hx, hsp]
      rfl
    cases hmt : matchTail post with
    | some ar =>
      obtain ⟨a, rest⟩ := ar
      rw [scanCore_step hopen hTail h1 hmt, scanCore_step hopen hTail hsp hmt]
      simp [List.append_assoc]
    | none =>
      rw [scanCore_pushback hopen hTail h1 hmt,
        scanCore_pushback hopen hTail hsp hmt]
      simp [List.append_assoc]

/-- A rendered EXEC span is safe for a token whose discriminator mismatches
`EX` and `/E`. -/
theorem safeChunk_renderExec {tok tr : List Char} (htok : tok = '[' :: tr)
    (h1 : (tr.take 2).isPrefixOf "EX".toList = false)
    (h2 : (tr.take 2).isPrefixOf "/E".toList = false)
    {body : List Char} (hb : '[' ∉ body) :
    SafeChunk tok (renderItem (.exec body)) := by
  have hshape : renderItem (.exec body) =
      ('[' :: ("EXEC]".toList ++ body)) ++ ('[' :: "/EXEC]".toList) := by
    show "[EXEC]".toList ++ body ++ "[/EXEC]".toList = _
    rw [show "[EXEC]".toList = '[' :: "EXEC]".toList from rfl,
      show "[/EXEC]".toList = '[' :: "/EXEC]".toList from rfl]
    simp [List.cons_append, List.append_assoc]
  rw [hshape]
  refine safeChunk_double htok ?_ ?_ ?_ (by decide) (by decide) h2
  · rw [List.length_append]
    have : ("EXEC]".toList).length = 5 := rfl
    omega
  · exact not_mem_append_char (by decide) hb
  · have : (("EXEC]".toList ++ body).take 2) = "EX".toList := rfl
    rw [this]
    exact h1

/-- A rendered SCRIPT span is safe for a token whose discriminator
mismatches `SC` and `/S`. -/
theorem safeChunk_renderScript {tok tr : List Char} (htok : tok = '[' :: tr)
    (h1 : (tr.take 2).isPrefixOf "SC".toList = false)
    (h2 : (tr.take 2).isPrefixOf "/S".toList = false)
    {kind fname body : List Char}
    (hkw : ∀ c ∈ kind, isPyWord c = true)
    (hfb : '[' ∉ fname) (hbb : '[' ∉ body) :
    SafeChunk tok (renderItem (.script kind fname body)) := by
  have hkb : '[' ∉ kind := fun hm => absurd (hkw _ hm) (by decide)
  have hshape : renderItem (.script kind fname body) =
      ('[' :: ("SCRIPT".toList ++ ' ' :: (kind ++ ' ' :: (fname ++ ']' :: body))))
        ++ ('[' :: "/SCRIPT]".toList) := by
    show "[SCRIPT".toList ++ ' ' :: (kind ++ ' ' :: (fname ++ ']' ::
      (body ++ "[/SCRIPT]".toList))) = _
    rw [show "[SCRIPT".toList = '[' :: "SCRIPT".toList from rfl,
      show "[/SCRIPT]".toList = '[' :: "/SCRIPT]".toList from rfl]
    simp [List.cons_append, List.append_assoc]
  rw [hshape]
  refine safeChunk_double htok ?_ ?_ ?_ (by decide) (by decide) h2
  · rw [List.length_append]
    have : ("SCRIPT".toList).length = 6 := rfl
    omega
  · refine not_mem_append_char (by decide) (not_mem_cons_char (by decide) ?_)
    refine not_mem_append_char hkb (not_mem_cons_char (by decide) ?_)
    exact not_mem_append_char hfb (not_mem_cons_char (by decide) hbb)
  · have : (("SCRIPT".toList ++ ' ' :: (kind ++ ' ' :: (fname ++ ']' ::
        body))).take 2) = "SC".toList := rfl
    rw [this]
    exact h1

/-- A rendered TEMPLATE span is safe for a token whose discriminator
mismatches `TE`. -/
theorem safeChunk_renderTemplate {tok tr : List Char} (htok : tok = '[' :: tr)
    (h1 : (tr.take 2).isPrefixOf "TE".toList = false)
    {kind fname : List Char}
    (hkw : ∀ c ∈ kind, isPyWord c = true) (hfb : '[' ∉ fname) :
    SafeChunk tok (renderItem (.template kind fname)) := by
  have hkb : '[' ∉ kind := fun hm => absurd (hkw _ hm) (by decide)
  have hshape : renderItem (.template kind fname) =
      '[' :: ("TEMPLATE".toList ++ ' ' :: (kind ++ ' ' :: (fname ++ [']']))) := by
    show "[TEMPLATE".toList ++ ' ' :: (kind ++ ' ' :: (fname ++ [']'])) = _
    rw [show "[TEMPLATE".toList = '[' :: "TEMPLATE".toList from rfl]
    simp [List.cons_append]
  rw [hshape]
  refine safeChunk_single htok ?_ ?_ ?_
  · rw [List.length_append]
    have : ("TEMPLATE".toList).length = 8 := rfl
    omega
  · refine not_mem_append_char (by decide) (not_mem_cons_char (by decide) ?_)
    refine not_mem_append_char hkb (not_mem_cons_char (by decide) ?_)
    exact not_mem_append_char hfb (by decide)
  · have : (("TEMPLATE".toList ++ ' ' :: (kind ++ ' ' :: (fname ++
        [']']))).take 2) = "TE".toList := rfl
    rw [this]
    exact h1

/-- A rendered QUICKCMD span is safe for a token whose discriminator
mismatches `QU`. -/
theorem safeChunk_renderQuick {tok tr : List Char} (htok : tok = '[' :: tr)
    (h1 : (tr.take 2).isPrefixOf "QU".toList = false)
    {name : List Char} {arg : Option (List Char)}
    (hnw : ∀ c ∈ name, isPyWord c = true)
    (hab : ∀ a, arg = some a → '[' ∉ a) :
    SafeChunk tok (renderItem (.quickcmd name arg)) := by
  have hnb : '[' ∉ name := fun hm => absurd (hnw _ hm) (by decide)
  cases arg with
  | none =>
    have hshape : renderItem (.quickcmd name none) =
        '[' :: ("QUICKCMD".toList ++ ' ' :: (name ++ [']'])) := by
      show "[QUICKCMD".toList ++ ' ' :: (name ++ [']']) = _
      rw [show "[QUICKCMD".toList = '[' :: "QUICKCMD".toList from rfl]
      simp [List.cons_append]
    rw [hshape]
    refine safeChunk_single htok ?_ ?_ ?_
    · rw [List.length_append]
      have : ("QUICKCMD".toList).length = 8 := rfl
      omega
    · refine not_mem_append_char (by decide) (not_mem_cons_char (by decide) ?_)
      exact not_mem_append_char hnb (by decide)
    · have : (("QUICKCMD".toList ++ ' ' :: (name ++ [']'])).take 2)
          = "QU".toList := rfl
      rw [this]
      exact h1
  | some a =>
    have hsome := hab a rfl
    have hshape : renderItem (.quickcmd name (some a)) =
        '[' :: ("QUICKCMD".toList ++ ' ' :: (name ++ ' ' :: (a ++ [']']))) := by
      show "[QUICKCMD".toList ++ ' ' :: (name ++ ' ' :: (a ++ [']'])) = _
      rw [show "[QUICKCMD".toList = '[' :: "QUICKCMD".toList from rfl]
      simp [List.cons_append]
    rw [hshape]
    refine safeChunk_single htok ?_ ?_ ?_
    · rw [List.length_append]
      have : ("QUICKCMD".toList).length = 8 := rfl
      omega
    · refine not_mem_append_char (by decide) (not_mem_cons_char (by decide) ?_)
      refine not_mem_append_char hnb (not_mem_cons_char (by decide) ?_)
      exact not_mem_append_char hsome (by decide)
    · have : (("QUICKCMD".toList ++ ' ' :: (name ++ ' ' :: (a ++
          [']']))).take 2) = "QU".toList := rfl
      rw [this]
      exact h1

/-- A rendered DEVOPS span is safe for a token whose discriminator
mismatches `DE`. -/
theorem safeChunk_renderDevops {tok tr : List Char} (htok : tok = '[' :: tr)
    (h1 : (tr.take 2).isPrefixOf "DE".toList = false)
    {name : List Char} {arg : Option (List Char)}
    (hnw : ∀ c ∈ name, isPyWord c = true)
    (hab : ∀ a, arg = some a → '[' ∉ a) :
    SafeChunk tok (renderItem (.devops name arg)) := by
  have hnb : '[' ∉ name := fun hm => absurd (hnw _ hm) (by decide)
  cases arg with
  | none =>
    have hshape : renderItem (.devops name none) =
        '[' :: ("DEVOPS".toList ++ ' ' :: (name ++ [']'])) := by
      show "[DEVOPS".toList ++ ' ' :: (name ++ [']']) = _
      rw [show "[DEVOPS".toList = '[' :: "DEVOPS".toList from rfl]
      simp [List.cons_append]
    rw [hshape]
    refine safeChunk_single htok ?_ ?_ ?_
    · rw [List.length_append]
      have : ("DEVOPS".toList).length = 6 := rfl
      omega
    · refine not_mem_append_char (by decide) (not_mem_cons_char (by decide) ?_)
      exact not_mem_append_char hnb (by decide)
    · have : (("DEVOPS".toList ++ ' ' :: (name ++ [']'])).take 2)
          = "DE".toList := rfl
      rw [this]
      exact h1
  | some a =>
    have hsome := hab a rfl
    have hshape : renderItem (.devops name (some a)) =
        '[' :: ("DEVOPS".toList ++ ' ' :: (name ++ ' ' :: (a ++ [']']))) := by
      show "[DEVOPS".toList ++ ' ' :: (name ++ ' ' :: (a ++ [']'])) = _
      rw [show "[DEVOPS".toList = '[' :: "DEVOPS".toList from rfl]
      simp [List.cons_append]
    rw [hshape]
    refine safeChunk_single htok ?_ ?_ ?_
    · rw [List.length_append]
      have : ("DEVOPS".toList).length = 6 := rfl
      omega
    · refine not_mem_append_char (by decide) (not_mem_cons_char (by decide) ?_)
      refine not_mem_append_char hnb (not_mem_cons_char (by decide) ?_)
      exact not_mem_append_char hsome (by decide)
    · have : (("DEVOPS".toList ++ ' ' :: (name ++ ' ' :: (a ++
          [']']))).take 2) = "DE".toList := rfl
      rw [this]
      exact h1

/-- Every non-EXEC item is transparent to the EXEC scan. -/
theorem safeChunk_exec_foreign {i : RItem} (hwf : WFRItem i)
    (hne : isExecItem i = false) :
    SafeChunk "[EXEC]".toList (renderItem i) := by
  cases i with
  | prose t => exact safeChunk_noBracket (by decide) hwf
  | exec body => exact Bool.noConfusion hne
  | script kind fname body =>
    obtain ⟨hk, hkw, hf, hfs, hfb, hfr, hbb⟩ := hwf
    exact safeChunk_renderScript
      (rfl : "[EXEC]".toList = '[' :: "EXEC]".toList)
      (by decide) (by decide) hkw hfb hbb
  | template kind fname =>
    obtain ⟨hk, hkw, hf, hfs, hfb, hfr⟩ := hwf
    exact safeChunk_renderTemplate
      (rfl : "[EXEC]".toList = '[' :: "EXEC]".toList) (by decide) hkw hfb
  | quickcmd name arg =>
    obtain ⟨hn, hnw, harg⟩ := hwf
    refine safeChunk_renderQuick
      (rfl : "[EXEC]".toList = '[' :: "EXEC]".toList) (by decide) hnw ?_
    intro a ha
    subst ha
    exact harg.2.2.1
  | devops name arg =>
    obtain ⟨hn, hnw, harg⟩ := hwf
    refine safeChunk_renderDevops
      (rfl : "[EXEC]".toList = '[' :: "EXEC]".toList) (by decide) hnw ?_
    intro a ha
    subst ha
    exact harg.2.2.1

/-- Every non-SCRIPT item is transparent to the SCRIPT scan. -/
theorem safeChunk_script_foreign {i : RItem} (hwf : WFRItem i)
    (hne : isScriptItem i = false) :
    SafeChunk "[SCRIPT".toList (renderItem i) := by
  cases i with
  | prose t => exact safeChunk_noBracket (by decide) hwf
  | script kind fname body => exact Bool.noConfusion hne
  | exec body =>
    exact safeChunk_renderExec
      (rfl : "[SCRIPT".toList = '[' :: "SCRIPT".toList)
      (by decide) (by decide) hwf
  | template kind fname =>
    obtain ⟨hk, hkw, hf, hfs, hfb, hfr⟩ := hwf
    exact safeChunk_renderTemplate
      (rfl : "[SCRIPT".toList = '[' :: "SCRIPT".toList) (by decide) hkw hfb
  | quickcmd name arg =>
    obtain ⟨hn, hnw, harg⟩ := hwf
    refine safeChunk_renderQuick
      (rfl : "[SCRIPT".toList = '[' :: "SCRIPT".toList) (by decide) hnw ?_
    intro a ha
    subst ha
    exact harg.2.2.1
  | devops name arg =>
    obtain ⟨hn, hnw, harg⟩ := hwf
    refine safeChunk_renderDevops
      (rfl : "[SCRIPT".toList = '[' :: "SCRIPT".toList) (by decide) hnw ?_
    intro a ha
    subst ha
    exact harg.2.2.1

/-- Every non-TEMPLATE item is transparent to the TEMPLATE scan. -/
theorem safeChunk_template_foreign {i : RItem} (hwf : WFRItem i)
    (hne : isTemplateItem i = false) :
    SafeChunk "[TEMPLATE".toList (renderItem i) := by
  cases i with
  | prose t => exact safeChunk_noBracket (by decide) hwf
  | template kind fname => exact Bool.noConfusion hne
  | exec body =>
    exact safeChunk_renderExec
      (rfl : "[TEMPLATE".toList = '[' :: "TEMPLATE".toList)
      (by decide) (by decide) hwf
  | script kind fname body =>
    obtain ⟨hk, hkw, hf, hfs, hfb, hfr, hbb⟩ := hwf
    exact safeChunk_renderScript
      (rfl : "[TEMPLATE".toList = '[' :: "TEMPLATE".toList)
      (by decide) (by decide) hkw hfb hbb
  | quickcmd name arg =>
    obtain ⟨hn, hnw, harg⟩ := hwf
    refine safeChunk_renderQuick
      (rfl : "[TEMPLATE".toList = '[' :: "TEMPLATE".toList) (by decide) hnw ?_
    intro a ha
    subst ha
    exact harg.2.2.1
  | devops name arg =>
    obtain ⟨hn, hnw, harg⟩ := hwf
    refine safeChunk_renderDevops
      (rfl : "[TEMPLATE".toList = '[' :: "TEMPLATE".toList) (by decide) hnw ?_
    intro a ha
    subst ha
    exact harg.2.2.1

/-- Every non-QUICKCMD item is transparent to the QUICKCMD scan. -/
theorem safeChunk_quick_foreign {i : RItem} (hwf : WFRItem i)
    (hne : isQuickItem i = false) :
    SafeChunk "[QUICKCMD".toList (renderItem i) := by
  cases i with
  | prose t => exact safeChunk_noBracket (by decide) hwf
  | quickcmd name arg => exact Bool.noConfusion hne
  | exec body =>
    exact safeChunk_renderExec
      (rfl : "[QUICKCMD".toList = '[' :: "QUICKCMD".toList)
      (by decide) (by decide) hwf
  | script kind fname body =>
    obtain ⟨hk, hkw, hf, hfs, hfb, hfr, hbb⟩ := hwf
    exact safeChunk_renderScript
      (rfl : "[QUICKCMD".toList = '[' :: "QUICKCMD".toList)
      (by decide) (by decide) hkw hfb hbb
  | template kind fname =>
    obtain ⟨hk, hkw, hf, hfs, hfb, hfr⟩ := hwf
    exact safeChunk_renderTemplate
      (rfl : "[QUICKCMD".toList = '[' :: "QUICKCMD".toList) (by decide) hkw hfb
  | devops name arg =>
    obtain ⟨hn, hnw, harg⟩ := hwf
    refine safeChunk_renderDevops
      (rfl : "[QUICKCMD".toList = '[' :: "QUICKCMD".toList) (by decide) hnw ?_
    intro a ha
    subst ha
    exact harg.2.2.1

/-- Every non-DEVOPS item is transparent to the DEVOPS scan. -/
theorem safeChunk_devops_foreign {i : RItem} (hwf : WFRItem i)
    (hne : isDevopsItem i = false) :
    SafeChunk "[DEVOPS".toList (renderItem i) := by
  cases i with
  | prose t => exact safeChunk_noBracket (by decide) hwf
  | devops name arg => exact Bool.noConfusion hne
  | exec body =>
    exact safeChunk_renderExec
      (rfl : "[DEVOPS".toList = '[' :: "DEVOPS".toList)
      (by decide) (by decide) hwf
  | script kind fname body =>
    obtain ⟨hk, hkw, hf, hfs, hfb, hfr, hbb⟩ := hwf
    exact safeChunk_renderScript
      (rfl : "[DEVOPS".toList = '[' :: "DEVOPS".toList)
      (by decide) (by decide) hkw hfb hbb
  | template kind fname =>
    obtain ⟨hk, hkw, hf, hfs, hfb, hfr⟩ := hwf
    exact safeChunk_renderTemplate
      (rfl : "[DEVOPS".toList = '[' :: "DEVOPS".toList) (by decide) hkw hfb
  | quickcmd name arg =>
    obtain ⟨hn, hnw, harg⟩ := hwf
    refine safeChunk_renderQuick
      (rfl : "[DEVOPS".toList = '[' :: "DEVOPS".toList) (by decide) hnw ?_
    intro a ha
    subst ha
    exact harg.2.2.1

/-- The EXEC scan consumes a leading rendered EXEC span. -/
theorem scanExec_cons {body : List Char} (hb : '[' ∉ body) (r : List Char) :
    scanExec (renderItem (.exec body) ++ r) =
      (body :: (scanExec r).1, (scanExec r).2) := by
  have hshape : renderItem (.exec body) ++ r =
      "[EXEC]".toList ++ (body ++ ("[/EXEC]".toList ++ r)) := by
    show ("[EXEC]".toList ++ body ++ "[/EXEC]".toList) ++ r = _
    simp [List.append_assoc]
  have hsp : splitFirst "[EXEC]".toList (renderItem (.exec body) ++ r) =
      some ([], body ++ ("[/EXEC]".toList ++ r)) := by
    rw [hshape, splitFirst_of_isPrefixOf
      (List.isPrefixOf_iff_prefix.mpr ⟨_, rfl⟩), List.drop_left]
  have hmt : execTail (body ++ ("[/EXEC]".toList ++ r)) = some (body, r) :=
    splitFirst_body_close (by decide) hb
  have h := scanCore_step (by decide)
    (fun _ _ _ hx => execTail_length hx) hsp hmt
  exact h

/-- The SCRIPT scan consumes a leading rendered SCRIPT span. -/
theorem scanScript_cons {kind fname body : List Char}
    (hk : kind ≠ []) (hkw : ∀ c ∈ kind, isPyWord c = true)
    (hf : fname ≠ []) (hfs : fname.takeWhile isPySpace = [])
    (hfr : ']' ∉ fname) (hbb : '[' ∉ body) (r : List Char) :
    scanScript (renderItem (.script kind fname body) ++ r) =
      ((kind, fname, body) :: (scanScript r).1, (scanScript r).2) := by
  have hshape : renderItem (.script kind fname body) ++ r =
      "[SCRIPT".toList ++ (' ' :: (kind ++ ' ' :: (fname ++ ']' ::
        (body ++ ("[/SCRIPT]".toList ++ r))))) := by
    show ("[SCRIPT".toList ++ ' ' :: (kind ++ ' ' :: (fname ++ ']' ::
      (body ++ "[/SCRIPT]".toList)))) ++ r = _
    simp [List.append_assoc, List.cons_append]
  have hsp : splitFirst "[SCRIPT".toList
      (renderItem (.script kind fname body) ++ r) =
      some ([], ' ' :: (kind ++ ' ' :: (fname ++ ']' ::
        (body ++ ("[/SCRIPT]".toList ++ r))))) := by
    rw [hshape, splitFirst_of_isPrefixOf
      (List.isPrefixOf_iff_prefix.mpr ⟨_, rfl⟩), List.drop_left]
  have hmt := @scriptTail_front kind fname body r hk hkw hf hfs hfr hbb
  have h := scanCore_step (by decide)
    (fun _ _ _ hx => scriptTail_length hx) hsp hmt
  exact h

/-- The TEMPLATE scan consumes a leading rendered TEMPLATE span. -/
theorem scanTemplate_cons {kind fname : List Char}
    (hk : kind ≠ []) (hkw : ∀ c ∈ kind, isPyWord c = true)
    (hf : fname ≠ []) (hfs : fname.takeWhile isPySpace = [])
    (hfr : ']' ∉ fname) (r : List Char) :
    scanTemplate (renderItem (.template kind fname) ++ r) =
      ((kind, fname) :: (scanTemplate r).1, (scanTemplate r).2) := by
  have hshape : renderItem (.template kind fname) ++ r =
      "[TEMPLATE".toList ++ (' ' :: (kind ++ ' ' :: (fname ++ ']' :: r))) := by
    show ("[TEMPLATE".toList ++ ' ' :: (kind ++ ' ' :: (fname ++ [']']))) ++ r = _
    simp [List.append_assoc, List.cons_append]
  have hsp : splitFirst "[TEMPLATE".toList
      (renderItem (.template kind fname) ++ r) =
      some ([], ' ' :: (kind ++ ' ' :: (fname ++ ']' :: r))) := by
    rw [hshape, splitFirst_of_isPrefixOf
      (List.isPrefixOf_iff_prefix.mpr ⟨_, rfl⟩), List.drop_left]
  have hmt := @openTagTail_front kind fname r hk hkw hf hfs hfr
  have h := scanCore_step (by decide)
    (fun _ _ _ hx => openTagTail_length hx) hsp hmt
  exact h

/-- The QUICKCMD scan consumes a leading rendered QUICKCMD span without
argument text. -/
theorem scanQuickCmd_cons_none {name : List Char}
    (hn : name ≠ []) (hnw : ∀ c ∈ name, isPyWord c = true) (r : List Char) :
    scanQuickCmd (renderItem (.quickcmd name none) ++ r) =
      ((name, none) :: (scanQuickCmd r).1, (scanQuickCmd r).2) := by
  have hshape : renderItem (.quickcmd name none) ++ r =
      "[QUICKCMD".toList ++ (' ' :: (name ++ ']' :: r)) := by
    show ("[QUICKCMD".toList ++ ' ' :: (name ++ [']'])) ++ r = _
    simp [List.append_assoc, List.cons_append]
  have hsp : splitFirst "[QUICKCMD".toList
      (renderItem (.quickcmd name none) ++ r) =
      some ([], ' ' :: (name ++ ']' :: r)) := by
    rw [hshape, splitFirst_of_isPrefixOf
      (List.isPrefixOf_iff_prefix.mpr ⟨_, rfl⟩), List.drop_left]
  have hmt := @quickTagTail_front_none name r hn hnw
  have h := scanCore_step (by decide)
    (fun _ _ _ hx => quickTagTail_length hx) hsp hmt
  exact h

/-- The QUICKCMD scan consumes a leading rendered QUICKCMD span with
argument text. -/
theorem scanQuickCmd_cons_some {name a : List Char}
    (hn : name ≠ []) (hnw : ∀ c ∈ name, isPyWord c = true)
    (ha : a ≠ []) (has : a.takeWhile isPySpace = []) (har : ']' ∉ a)
    (r : List Char) :
    scanQuickCmd (renderItem (.quickcmd name (some a)) ++ r) =
      ((name, some a) :: (scanQuickCmd r).1, (scanQuickCmd r).2) := by
  have hshape : renderItem (.quickcmd name (some a)) ++ r =
      "[QUICKCMD".toList ++ (' ' :: (name ++ ' ' :: (a ++ ']' :: r))) := by
    show ("[QUICKCMD".toList ++ ' ' :: (name ++ ' ' :: (a ++ [']']))) ++ r = _
    simp [List.append_assoc, List.cons_append]
  have hsp : splitFirst "[QUICKCMD".toList
      (renderItem (.quickcmd name (some a)) ++ r) =
      some ([], ' ' :: (name ++ ' ' :: (a ++ ']' :: r))) := by
    rw [hshape, splitFirst_of_isPrefixOf
      (List.isPrefixOf_iff_prefix.mpr ⟨_, rfl⟩), List.drop_left]
  have hmt := @quickTagTail_front_some name a r hn hnw ha has har
  have h := scanCore_step (by decide)
    (fun _ _ _ hx => quickTagTail_length hx) hsp hmt
  exact h

/-- The DEVOPS scan consumes a leading rendered DEVOPS span without
argument text. -/
theorem scanDevops_cons_none {name : List Char}
    (hn : name ≠ []) (hnw : ∀ c ∈ name, isPyWord c = true) (r : List Char) :
    scanDevops (renderItem (.devops name none) ++ r) =
      ((name, none) :: (scanDevops r).1, (scanDevops r).2) := by
  have hshape : renderItem (.devops name none) ++ r =
      "[DEVOPS".toList ++ (' ' :: (name ++ ']' :: r)) := by
    show ("[DEVOPS".toList ++ ' ' :: (name ++ [']'])) ++ r = _
    simp [List.append_assoc, List.cons_append]
  have hsp : splitFirst "[DEVOPS".toList
      (renderItem (.devops name none) ++ r) =
      some ([], ' ' :: (name ++ ']' :: r)) := by
    rw [hshape, splitFirst_of_isPrefixOf
      (List.isPrefixOf_iff_prefix.mpr ⟨_, rfl⟩), List.drop_left]
  have hmt := @quickTagTail_front_none name r hn hnw
  have h := scanCore_step (by decide)
    (fun _ _ _ hx => quickTagTail_length hx) hsp hmt
  exact h

/-- The DEVOPS scan consumes a leading rendered DEVOPS span with argument
text. -/
theorem scanDevops_cons_some {name a : List Char}
    (hn : name ≠ []) (hnw : ∀ c ∈ name, isPyWord c = true)
    (ha : a ≠ []) (has : a.takeWhile isPySpace = []) (har : ']' ∉ a)
    (r : List Char) :
    scanDevops (renderItem (.devops name (some a)) ++ r) =
      ((name, some a) :: (scanDevops r).1, (scanDevops r).2) := by
  have hshape : renderItem (.devops name (some a)) ++ r =
      "[DEVOPS".toList ++ (' ' :: (name ++ ' ' :: (a ++ ']' :: r))) := by
    show ("[DEVOPS".toList ++ ' ' :: (name ++ ' ' :: (a ++ [']']))) ++ r = _
    simp [List.append_assoc, List.cons_append]
  have hsp : splitFirst "[DEVOPS".toList
      (renderItem (.devops name (some a)) ++ r) =
      some ([], ' ' :: (name ++ ' ' :: (a ++ ']' :: r))) := by
    rw [hshape, splitFirst_of_isPrefixOf
      (List.isPrefixOf_iff_prefix.mpr ⟨_, rfl⟩), List.drop_left]
  have hmt := @quickTagTail_front_some name a r hn hnw ha has har
  have h := scanCore_step (by decide)
    (fun _ _ _ hx => quickTagTail_length hx) hsp hmt
  exact h

/-- The EXEC scan of a well-formed rendering: the bodies of the EXEC items
in document order, with exactly their spans removed. -/
theorem scanExec_render : ∀ (items : List RItem), (∀ i ∈ items, WFRItem i) →
    scanExec (render items) =
      (items.filterMap execPayload?,
       render (items.filter (fun i => !isExecItem i))) := by
  intro items
  induction items with
  | nil => intro _; rfl
  | cons i rest ih =>
    intro hwf
    have hrest := fun j hj => hwf j (List.mem_cons_of_mem i hj)
    have hi := hwf i (List.mem_cons_self ..)
    show scanExec (renderItem i ++ render rest) = _
    cases hcase : isExecItem i with
    | true =>
      obtain ⟨body, rfl⟩ : ∃ b, i = .exec b := by
        cases i <;> first | exact ⟨_, rfl⟩ | exact Bool.noConfusion hcase
      rw [scanExec_cons hi (render rest), ih hrest]
      rfl
    | false =>
      have h := scanCore_prepend (α := List Char) (by decide)
        (fun _ _ _ hx => execTail_length hx) (renderItem i) (render rest)
        (safeChunk_exec_foreign hi hcase)
      have hp : execPayload? i = none := by
        cases i <;> first | rfl | exact Bool.noConfusion hcase
      rw [show scanExec (renderItem i ++ render rest) =
        ((scanExec (render rest)).1, renderItem i ++ (scanExec (render rest)).2)
        from h, ih hrest, List.filterMap_cons, hp, List.filter_cons,
        if_pos (by rw [hcase]; rfl)]
      rfl

/-- The SCRIPT scan of a well-formed rendering. -/
theorem scanScript_render : ∀ (items : List RItem), (∀ i ∈ items, WFRItem i) →
    scanScript (render items) =
      (items.filterMap scriptPayload?,
       render (items.filter (fun i => !isScriptItem i))) := by
  intro items
  induction items with
  | nil => intro _; rfl
  | cons i rest ih =>
    intro hwf
    have hrest := fun j hj => hwf j (List.mem_cons_of_mem i hj)
    have hi := hwf i (List.mem_cons_self ..)
    show scanScript (renderItem i ++ render rest) = _
    cases hcase : isScriptItem i with
    | true =>
      obtain ⟨kind, fname, body, rfl⟩ : ∃ k f b, i = .script k f b := by
        cases i <;> first | exact ⟨_, _, _, rfl⟩ | exact Bool.noConfusion hcase
      obtain ⟨hk, hkw, hf, hfs, hfb, hfr, hbb⟩ := hi
      rw [scanScript_cons hk hkw hf hfs hfr hbb (render rest), ih hrest]
      rfl
    | false =>
      have h := scanCore_prepend (α := List Char × List Char × List Char)
        (by decide) (fun _ _ _ hx => scriptTail_length hx)
        (renderItem i) (render rest) (safeChunk_script_foreign hi hcase)
      have hp : scriptPayload? i = none := by
        cases i <;> first | rfl | exact Bool.noConfusion hcase
      rw [show scanScript (renderItem i ++ render rest) =
        ((scanScript (render rest)).1,
         renderItem i ++ (scanScript (render rest)).2)
        from h, ih hrest, List.filterMap_cons, hp, List.filter_cons,
        if_pos (by rw [hcase]; rfl)]
      rfl

/-- The TEMPLATE scan of a well-formed rendering. -/
theorem scanTemplate_render : ∀ (items : List RItem), (∀ i ∈ items, WFRItem i) →
    scanTemplate (render items) =
      (items.filterMap templatePayload?,
       render (items.filter (fun i => !isTemplateItem i))) := by
  intro items
  induction items with
  | nil => intro _; rfl
  | cons i rest ih =>
    intro hwf
    have hrest := fun j hj => hwf j (List.mem_cons_of_mem i hj)
    have hi := hwf i (List.mem_cons_self ..)
    show scanTemplate (renderItem i ++ render rest) = _
    cases hcase : isTemplateItem i with
    | true =>
      obtain ⟨kind, fname, rfl⟩ : ∃ k f, i = .template k f := by
        cases i <;> first | exact ⟨_, _, rfl⟩ | exact Bool.noConfusion hcase
      obtain ⟨hk, hkw, hf, hfs, hfb, hfr⟩ := hi
      rw [scanTemplate_cons hk hkw hf hfs hfr (render rest), ih hrest]
      rfl
    | false =>
      have h := scanCore_prepend (α := List Char × List Char)
        (by decide) (fun _ _ _ hx => openTagTail_length hx)
        (renderItem i) (render rest) (safeChunk_template_foreign hi hcase)
      have hp : templatePayload? i = none := by
        cases i <;> first | rfl | exact Bool.noConfusion hcase
      rw [show scanTemplate (renderItem i ++ render rest) =
        ((scanTemplate (render rest)).1,
         renderItem i ++ (scanTemplate (render rest)).2)
        from h, ih hrest, List.filterMap_cons, hp, List.filter_cons,
        if_pos (by rw [hcase]; rfl)]
      rfl

/-- The QUICKCMD scan of a well-formed rendering. -/
theorem scanQuickCmd_render : ∀ (items : List RItem), (∀ i ∈ items, WFRItem i) →
    scanQuickCmd (render items) =
      (items.filterMap quickPayload?,
       render (items.filter (fun i => !isQuickItem i))) := by
  intro items
  induction items with
  | nil => intro _; rfl
  | cons i rest ih =>
    intro hwf
    have hrest := fun j hj => hwf j (List.mem_cons_of_mem i hj)
    have hi := hwf i (List.mem_cons_self ..)
    show scanQuickCmd (renderItem i ++ render rest) = _
    cases hcase : isQuickItem i with
    | true =>
      obtain ⟨name, arg, rfl⟩ : ∃ n a, i = .quickcmd n a := by
        cases i <;> first | exact ⟨_, _, rfl⟩ | exact Bool.noConfusion hcase
      obtain ⟨hn, hnw, harg⟩ := hi
      cases arg with
      | none =>
        rw [scanQuickCmd_cons_none hn hnw (render rest), ih hrest]
        rfl
      | some a =>
        obtain ⟨ha, has, hab, har⟩ := harg
        rw [scanQuickCmd_cons_some hn hnw ha has har (render rest), ih hrest]
        rfl
    | false =>
      have h := scanCore_prepend (α := List Char × Option (List Char))
        (by decide) (fun _ _ _ hx => quickTagTail_length hx)
        (renderItem i) (render rest) (safeChunk_quick_foreign hi hcase)
      have hp : quickPayload? i = none := by
        cases i <;> first | rfl | exact Bool.noConfusion hcase
      rw [show scanQuickCmd (renderItem i ++ render rest) =
        ((scanQuickCmd (render rest)).1,
         renderItem i ++ (scanQuickCmd (render rest)).2)
        from h, ih hrest, List.filterMap_cons, hp, List.filter_cons,
        if_pos (by rw [hcase]; rfl)]
      rfl

/-- The DEVOPS scan of a well-formed rendering. -/
theorem scanDevops_render : ∀ (items : List RItem), (∀ i ∈ items, WFRItem i) →
    scanDevops (render items) =
      (items.filterMap devopsPayload?,
       render (items.filter (fun i => !isDevopsItem i))) := by
  intro items
  induction items with
  | nil => intro _; rfl
  | cons i rest ih =>
    intro hwf
    have hrest := fun j hj => hwf j (List.mem_cons_of_mem i hj)
    have hi := hwf i (List.mem_cons_self ..)
    show scanDevops (renderItem i ++ render rest) = _
    cases hcase : isDevopsItem i with
    | true =>
      obtain ⟨name, arg, rfl⟩ : ∃ n a, i = .devops n a := by
        cases i <;> first | exact ⟨_, _, rfl⟩ | exact Bool.noConfusion hcase
      obtain ⟨hn, hnw, harg⟩ := hi
      cases arg with
      | none =>
        rw [scanDevops_cons_none hn hnw (render rest), ih hrest]
        rfl
      | some a =>
        obtain ⟨ha, has, hab, har⟩ := harg
        rw [scanDevops_cons_some hn hnw ha has har (render rest), ih hrest]
        rfl
    | false =>
      have h := scanCore_prepend (α := List Char × Option (List Char))
        (by decide) (fun _ _ _ hx => quickTagTail_length hx)
        (renderItem i) (render rest) (safeChunk_devops_foreign hi hcase)
      have hp : devopsPayload? i = none := by
        cases i <;> first | rfl | exact Bool.noConfusion hcase
      rw [show scanDevops (renderItem i ++ render rest) =
        ((scanDevops (render rest)).1,
         renderItem i ++ (scanDevops (render rest)).2)
        from h, ih hrest, List.filterMap_cons, hp, List.filter_cons,
        if_pos (by rw [hcase]; rfl)]
      rfl

/-- Each non-prose item feeds exactly one of the five payload extractors. -/
theorem payload_count : ∀ (items : List RItem),
    (items.filterMap execPayload?).length +
    (items.filterMap scriptPayload?).length +
    (items.filterMap templatePayload?).length +
    (items.filterMap quickPayload?).length +
    (items.filterMap devopsPayload?).length =
    (items.filter (fun i => !isProseItem i)).length := by
  intro items
  induction items with
  | nil => rfl
  | cons i rest ih =>
    cases i with
    | prose t => exact ih
    | exec body =>
      show (body :: rest.filterMap execPayload?).length +
          (rest.filterMap scriptPayload?).length +
          (rest.filterMap templatePayload?).length +
          (rest.filterMap quickPayload?).length +
          (rest.filterMap devopsPayload?).length =
        (RItem.exec body :: rest.filter (fun i => !isProseItem i)).length
      simp only [List.length_cons]
      omega
    | script kind fname body =>
      show (rest.filterMap execPayload?).length +
          ((kind, fname, body) :: rest.filterMap scriptPayload?).length +
          (rest.filterMap templatePayload?).length +
          (rest.filterMap quickPayload?).length +
          (rest.filterMap devopsPayload?).length =
        (RItem.script kind fname body ::
          rest.filter (fun i => !isProseItem i)).length
      simp only [List.length_cons]
      omega
    | template kind fname =>
      show (rest.filterMap execPayload?).length +
          (rest.filterMap scriptPayload?).length +
          ((kind, fname) :: rest.filterMap templatePayload?).length +
          (rest.filterMap quickPayload?).length +
          (rest.filterMap devopsPayload?).length =
        (RItem.template kind fname ::
          rest.filter (fun i => !isProseItem i)).length
      simp only [List.length_cons]
      omega
    | quickcmd name argText =>
      show (rest.filterMap execPayload?).length +
          (rest.filterMap scriptPayload?).length +
          (rest.filterMap templatePayload?).length +
          ((name, argText) :: rest.filterMap quickPayload?).length +
          (rest.filterMap devopsPayload?).length =
        (RItem.quickcmd name argText ::
          rest.filter (fun i => !isProseItem i)).length
      simp only [List.length_cons]
      omega
    | devops name argText =>
      show (rest.filterMap execPayload?).length +
          (rest.filterMap scriptPayload?).length +
          (rest.filterMap templatePayload?).length +
          (rest.filterMap quickPayload?).length +
          ((name, argText) :: rest.filterMap devopsPayload?).length =
        (RItem.devops name argText ::
          rest.filter (fun i => !isProseItem i)).length
      simp only [List.length_cons]
      omega

/-- Removing the five directive kinds in sequence leaves the prose items. -/
theorem filter_nonkind_eq_prose : ∀ (items : List RItem),
    ((((items.filter (fun i => !isExecItem i)).filter
      (fun i => !isScriptItem i)).filter
      (fun i => !isTemplateItem i)).filter
      (fun i => !isQuickItem i)).filter
      (fun i => !isDevopsItem i) = items.filter isProseItem := by
  intro items
  induction items with
  | nil => rfl
  | cons i rest ih =>
    cases i with
    | prose t => exact congrArg (List.cons (RItem.prose t)) ih
    | exec body => exact ih
    | script kind fname body => exact ih
    | template kind fname => exact ih
    | quickcmd name argText => exact ih
    | devops name argText => exact ih

/-- C2, counterexample: in the response
`[DEVOPS docker_info] first, then [EXEC] pwd [/EXEC]` the DEVOPS tag opens
first in the document, yet the parser yields (and `process_response` acts
on) the EXEC directive first — directives are grouped by kind, not taken in
document order. -/
theorem C2_counterexample :
    responseDirectives
      "[DEVOPS docker_info] first, then [EXEC] pwd [/EXEC]".toList =
      [Directive.exec "pwd".toList,
       Directive.devops "docker_info".toList []] ∧
    responseDirectives
      "[DEVOPS docker_info] first, then [EXEC] pwd [/EXEC]".toList ≠
      [Directive.devops "docker_info".toList [],
       Directive.exec "pwd".toList] := by
  constructor
  · rfl
  · intro h
    have h1 : responseDirectives
        "[DEVOPS docker_info] first, then [EXEC] pwd [/EXEC]".toList =
        [Directive.exec "pwd".toList,
         Directive.devops "docker_info".toList []] := rfl
    rw [h1] at h
    exact absurd (List.cons.injEq .. ▸ h).1 (by decide)

/-- C2, amended: for every response rendered from well-formed items, the
parser yields one directive per non-prose item — but grouped by kind (all
EXEC directives first, then SCRIPT, TEMPLATE, QUICKCMD, DEVOPS, each group
in document order), not in overall document order, per the counterexample;
the returned prose is exactly the prose items (concatenated, stripped) and
contains no tag spans (no `[` at all). -/
theorem C2_amended : ∀ (items : List RItem), (∀ i ∈ items, WFRItem i) →
    responseDirectives (render items) =
      ((items.filterMap execPayload?).map
        (fun b => Directive.exec (pyStrip b)) ++
       (items.filterMap scriptPayload?).map (fun p =>
         Directive.script (pyStrip p.1) (pyStrip p.2.1) (pyStrip p.2.2)) ++
       (items.filterMap templatePayload?).map (fun p =>
         Directive.template (pyStrip p.1) (pyStrip p.2)) ++
       (items.filterMap quickPayload?).map (fun p =>
         Directive.quickcmd (pyStrip p.1) (argSplit p.2)) ++
       (items.filterMap devopsPayload?).map (fun p =>
         Directive.devops (pyStrip p.1) (argSplit p.2))) ∧
    (responseDirectives (render items)).length =
      (items.filter (fun i => !isProseItem i)).length ∧
    cleanProse (render items) = pyStrip (render (items.filter isProseItem)) ∧
    (∀ c ∈ cleanProse (render items), c ≠ '[') := by
  intro items hwf
  have hE := scanExec_render items hwf
  have hS := scanScript_render items hwf
  have hT := scanTemplate_render items hwf
  have hQ := scanQuickCmd_render items hwf
  have hD := scanDevops_render items hwf
  have hfirst : responseDirectives (render items) =
      ((items.filterMap execPayload?).map
        (fun b => Directive.exec (pyStrip b)) ++
       (items.filterMap scriptPayload?).map (fun p =>
         Directive.script (pyStrip p.1) (pyStrip p.2.1) (pyStrip p.2.2)) ++
       (items.filterMap templatePayload?).map (fun p =>
         Directive.template (pyStrip p.1) (pyStrip p.2)) ++
       (items.filterMap quickPayload?).map (fun p =>
         Directive.quickcmd (pyStrip p.1) (argSplit p.2)) ++
       (items.filterMap devopsPayload?).map (fun p =>
         Directive.devops (pyStrip p.1) (argSplit p.2))) := by
    unfold responseDirectives
    rw [hE, hS, hT, hQ, hD]
  have hprose : cleanProse (render items) =
      pyStrip (render (items.filter isProseItem)) := by
    have hwf1 : ∀ i ∈ items.filter (fun i => !isExecItem i), WFRItem i :=
      fun i hi => hwf i (List.mem_of_mem_filter hi)
    have hS1 := scanScript_render _ hwf1
    have hwf2 : ∀ i ∈ (items.filter (fun i => !isExecItem i)).filter
        (fun i => !isScriptItem i), WFRItem i :=
      fun i hi => hwf1 i (List.mem_of_mem_filter hi)
    have hT1 := scanTemplate_render _ hwf2
    have hwf3 : ∀ i ∈ ((items.filter (fun i => !isExecItem i)).filter
        (fun i => !isScriptItem i)).filter (fun i => !isTemplateItem i),
        WFRItem i :=
      fun i hi => hwf2 i (List.mem_of_mem_filter hi)
    have hQ1 := scanQuickCmd_render _ hwf3
    have hwf4 : ∀ i ∈ (((items.filter (fun i => !isExecItem i)).filter
        (fun i => !isScriptItem i)).filter
        (fun i => !isTemplateItem i)).filter (fun i => !isQuickItem i),
        WFRItem i :=
      fun i hi => hwf3 i (List.mem_of_mem_filter hi)
    have hD1 := scanDevops_render _ hwf4
    unfold cleanProse
    rw [hE, hS1, hT1, hQ1, hD1, filter_nonkind_eq_prose]
  refine ⟨hfirst, ?_, hprose, ?_⟩
  · have hlen := payload_count items
    rw [hfirst]
    simp only [List.length_append, List.length_map]
    omega
  · intro c hc
    rw [hprose] at hc
    obtain ⟨i, hi, hci⟩ := mem_render (mem_pyStrip hc)
    have hmem := List.mem_filter.mp hi
    obtain ⟨t, rfl⟩ : ∃ t, i = .prose t := by
      cases i <;> first
        | exact ⟨_, rfl⟩
        | exact Bool.noConfusion hmem.2
    intro hcl
    subst hcl
    exact hwf _ hmem.1 hci

/-- C2, witness: the amended theorem at a concrete four-item response —
a DEVOPS tag before an EXEC tag yields the EXEC directive first, the prose
is the two prose stretches, stripped, and holds no bracket. -/
theorem C2_witness :
    responseDirectives (render [RItem.prose "hello ".toList,
      RItem.devops "docker_info".toList none,
      RItem.prose " then ".toList, RItem.exec " pwd ".toList]) =
      [Directive.exec "pwd".toList,
       Directive.devops "docker_info".toList []] ∧
    cleanProse (render [RItem.prose "hello ".toList,
      RItem.devops "docker_info".toList none,
      RItem.prose " then ".toList, RItem.exec " pwd ".toList]) =
      "hello  then".toList ∧
    (∀ c ∈ cleanProse (render [RItem.prose "hello ".toList,
      RItem.devops "docker_info".toList none,
      RItem.prose " then ".toList, RItem.exec " pwd ".toList]), c ≠ '[') := by
  have hwf : ∀ i ∈ [RItem.prose "hello ".toList,
      RItem.devops "docker_info".toList none,
      RItem.prose " then ".toList, RItem.exec " pwd ".toList], WFRItem i := by
    intro i hi
    fin_cases hi
    · exact (by decide : '[' ∉ "hello ".toList)
    · exact ⟨by decide, by decide, trivial⟩
    · exact (by decide : '[' ∉ " then ".toList)
    · exact (by decide : '[' ∉ " pwd ".toList)
  have h := C2_amended [RItem.prose "hello ".toList,
    RItem.devops "docker_info".toList none,
    RItem.prose " then ".toList, RItem.exec " pwd ".toList] hwf
  refine ⟨?_, ?_, h.2.2.2⟩
  · rw [h.1]
    rfl
  · rw [h.2.2.1]
    rfl

end AIAgent
